import Mathlib

/-!
# warnings.h : the diagnostic-suppression macros

A shallow embedding of `src/warnings.h` together with the part of the C
preprocessor the header relies on: the macros the toolchain predefines,
conditional inclusion on `defined(...)`, `#define` of object-like and
function-like macros, and macro replacement with argument pre-expansion,
hide sets and rescanning.  The effect of the
resulting directives on the compiler is described by a small model of the
toolchain's diagnostic state.
-/

namespace Warnings

/-! ## Preprocessing tokens and macro definitions -/

/-- A preprocessing token: an identifier, a pp-number, a punctuator or a
string literal (the text between the quotes). -/
inductive Token where
  | ident (name : String)
  | number (value : Nat)
  | punct (text : String)
  | strLit (contents : String)
  deriving DecidableEq, Repr

/-- A macro definition as recorded by `#define`. -/
inductive Macro where
  | object (body : List Token)
  | function (params : List String) (body : List Token)
  deriving DecidableEq, Repr

/-- The macro table: most recent definition first. -/
abbrev MacroTable := List (String × Macro)

/-- Errors of the preprocessor model. -/
inductive PPError where
  | outOfFuel
  | unterminatedArguments
  | wrongArgumentCount
  | strayElse
  | strayEndif
  | missingEndif
  deriving DecidableEq, Repr

/-! ## The header as a list of directives -/

/-- One logical line of the header after comments are removed. -/
inductive Directive where
  | pragmaOnce
  | ifDefined (name : String)
  | elseGroup
  | endif
  | defineObject (name : String) (body : List Token)
  | defineFunction (name : String) (params : List String) (body : List Token)
  deriving DecidableEq, Repr

def lparen : Token := Token.punct "("

def rparen : Token := Token.punct ")"

/-- Replacement list `__pragma(warning(push))`. -/
def msvcPushBody : List Token :=
  [Token.ident "__pragma", lparen, Token.ident "warning", lparen,
   Token.ident "push", rparen, rparen]

/-- Replacement list `__pragma(warning(pop))`. -/
def msvcPopBody : List Token :=
  [Token.ident "__pragma", lparen, Token.ident "warning", lparen,
   Token.ident "pop", rparen, rparen]

/-- Replacement list `__pragma(warning(disable: w))`. -/
def msvcDisableBody : List Token :=
  [Token.ident "__pragma", lparen, Token.ident "warning", lparen,
   Token.ident "disable", Token.punct ":", Token.ident "w", rparen, rparen]

/-- Replacement list `_Pragma("GCC diagnostic push")`. -/
def gccPushBody : List Token :=
  [Token.ident "_Pragma", lparen, Token.strLit "GCC diagnostic push", rparen]

/-- Replacement list `_Pragma("GCC diagnostic pop")`. -/
def gccPopBody : List Token :=
  [Token.ident "_Pragma", lparen, Token.strLit "GCC diagnostic pop", rparen]

/-- The directives of `warnings.h`, in source order.  The two `//` comment
lines (the boost include and the commented-out definition of
`DISABLE_GCC_AND_CLANG_WARNING`) are comments and contribute no directive. -/
def warningsH : List Directive :=
  [ Directive.pragmaOnce,
    Directive.ifDefined "_MSC_VER",
    Directive.defineObject "PUSH_WARNINGS" msvcPushBody,
    Directive.defineObject "POP_WARNINGS" msvcPopBody,
    Directive.defineFunction "DISABLE_VS_WARNINGS" ["w"] msvcDisableBody,
    Directive.defineFunction "DISABLE_GCC_WARNING" ["w"] [],
    Directive.defineFunction "DISABLE_CLANG_WARNING" ["w"] [],
    Directive.defineFunction "DISABLE_GCC_AND_CLANG_WARNING" ["w"] [],
    Directive.elseGroup,
    Directive.defineObject "PUSH_WARNINGS" gccPushBody,
    Directive.defineObject "POP_WARNINGS" gccPopBody,
    Directive.defineFunction "DISABLE_VS_WARNINGS" ["w"] [],
    Directive.ifDefined "__clang__",
    Directive.defineFunction "DISABLE_GCC_WARNING" ["w"] [],
    Directive.defineObject "DISABLE_CLANG_WARNING"
      [Token.ident "DISABLE_GCC_AND_CLANG_WARNING"],
    Directive.elseGroup,
    Directive.defineObject "DISABLE_GCC_WARNING"
      [Token.ident "DISABLE_GCC_AND_CLANG_WARNING"],
    Directive.defineFunction "DISABLE_CLANG_WARNING" ["w"] [],
    Directive.endif,
    Directive.endif ]

/-! ## Conditional inclusion and `#define` -/

/-- One open `#if` group: whether the enclosing group is being processed,
whether a branch of this group has already been taken, and whether the
current branch is being processed. -/
structure CondFrame where
  parentActive : Bool
  taken : Bool
  active : Bool
  deriving DecidableEq, Repr

/-- State of the directive processor. -/
structure PPState where
  macros : MacroTable
  conds : List CondFrame
  deriving DecidableEq, Repr

/-- Whether the current line is in a group that is being processed. -/
def PPState.active (st : PPState) : Bool :=
  match st.conds with
  | [] => true
  | f :: _ => f.active

/-- Whether a name can be a macro predefined by the toolchain: a reserved
identifier (a leading underscore followed by an uppercase letter or a second
underscore) other than the operator `_Pragma` and the keyword `__pragma`,
which are not macro names. -/
def isToolchainName (s : String) : Bool :=
  match s.data with
  | a :: b :: _ => a == '_' && (b == '_' || b.isUpper) && s != "_Pragma" && s != "__pragma"
  | _ => false

/-- A compiler-identity macro predefined by the toolchain, such as
`_MSC_VER`, `__clang__` or `__GNUC__`: an object-like macro with a number as
its replacement list. -/
structure Predefined where
  name : String
  value : Nat
  reserved : isToolchainName name = true

/-- The names the toolchain predefines. -/
def predefinedNames (predefined : List Predefined) : List String :=
  predefined.map fun p => p.name

/-- The macro table before the first line of the header. -/
def predefinedMacros (predefined : List Predefined) : MacroTable :=
  predefined.map fun p => (p.name, Macro.object [Token.number p.value])

/-- The `defined` operator: the name is a macro at this point, predefined or
defined by a directive processed so far. -/
def isDefined (st : PPState) (name : String) : Bool :=
  (st.macros.lookup name).isSome

/-- Process one directive. -/
def stepDirective (st : PPState) : Directive → Except PPError PPState
  | Directive.pragmaOnce => Except.ok st
  | Directive.ifDefined name =>
      let c := st.active && isDefined st name
      Except.ok { st with conds := ⟨st.active, c, c⟩ :: st.conds }
  | Directive.elseGroup =>
      match st.conds with
      | [] => Except.error PPError.strayElse
      | f :: fs =>
          Except.ok { st with conds := ⟨f.parentActive, true, f.parentActive && !f.taken⟩ :: fs }
  | Directive.endif =>
      match st.conds with
      | [] => Except.error PPError.strayEndif
      | _ :: fs => Except.ok { st with conds := fs }
  | Directive.defineObject name body =>
      if st.active then Except.ok { st with macros := (name, Macro.object body) :: st.macros }
      else Except.ok st
  | Directive.defineFunction name params body =>
      if st.active then
        Except.ok { st with macros := (name, Macro.function params body) :: st.macros }
      else Except.ok st

/-- Process a list of directives in order. -/
def runDirectives : PPState → List Directive → Except PPError PPState
  | st, [] => Except.ok st
  | st, d :: ds =>
      match stepDirective st d with
      | Except.ok st' => runDirectives st' ds
      | Except.error e => Except.error e

/-- The macro table after `warnings.h` has been included by a toolchain with
the given predefined macros: the definitions of the header in front of the
predefined ones. -/
def headerMacros (predefined : List Predefined) : Except PPError MacroTable :=
  match runDirectives ⟨predefinedMacros predefined, []⟩ warningsH with
  | Except.ok st =>
      match st.conds with
      | [] => Except.ok st.macros
      | _ :: _ => Except.error PPError.missingEndif
  | Except.error e => Except.error e

/-- The toolchain identity the header distinguishes. -/
inductive Family where
  | msvc
  | clang
  | gcc
  deriving DecidableEq, Repr

/-- Toolchain identity read from the predefined names: MSVC-like when
`_MSC_VER` is defined, Clang-like when only `__clang__` is, GCC-like otherwise. -/
def family (predefined : List Predefined) : Family :=
  if (predefinedNames predefined).contains "_MSC_VER" then Family.msvc
  else if (predefinedNames predefined).contains "__clang__" then Family.clang
  else Family.gcc

/-- Definitions the header makes under `_MSC_VER`. -/
def msvcTable : MacroTable :=
  [ ("DISABLE_GCC_AND_CLANG_WARNING", Macro.function ["w"] []),
    ("DISABLE_CLANG_WARNING", Macro.function ["w"] []),
    ("DISABLE_GCC_WARNING", Macro.function ["w"] []),
    ("DISABLE_VS_WARNINGS", Macro.function ["w"] msvcDisableBody),
    ("POP_WARNINGS", Macro.object msvcPopBody),
    ("PUSH_WARNINGS", Macro.object msvcPushBody) ]

/-- Definitions the header makes without `_MSC_VER` and with `__clang__`. -/
def clangTable : MacroTable :=
  [ ("DISABLE_CLANG_WARNING", Macro.object [Token.ident "DISABLE_GCC_AND_CLANG_WARNING"]),
    ("DISABLE_GCC_WARNING", Macro.function ["w"] []),
    ("DISABLE_VS_WARNINGS", Macro.function ["w"] []),
    ("POP_WARNINGS", Macro.object gccPopBody),
    ("PUSH_WARNINGS", Macro.object gccPushBody) ]

/-- Definitions the header makes without `_MSC_VER` and without `__clang__`. -/
def gccTable : MacroTable :=
  [ ("DISABLE_CLANG_WARNING", Macro.function ["w"] []),
    ("DISABLE_GCC_WARNING", Macro.object [Token.ident "DISABLE_GCC_AND_CLANG_WARNING"]),
    ("DISABLE_VS_WARNINGS", Macro.function ["w"] []),
    ("POP_WARNINGS", Macro.object gccPopBody),
    ("PUSH_WARNINGS", Macro.object gccPushBody) ]

/-- The definitions the header makes for each toolchain identity. -/
def familyTable : Family → MacroTable
  | Family.msvc => msvcTable
  | Family.clang => clangTable
  | Family.gcc => gccTable

/-- The whole macro table of a toolchain identity: the header's definitions
in front of the predefined macros. -/
def fullTable (fam : Family) (predefined : List Predefined) : MacroTable :=
  familyTable fam ++ predefinedMacros predefined

/-! ## Macro replacement -/

/-- A token together with its hide set: the macro names that may no longer
be replaced at this token. -/
structure PTok where
  tok : Token
  hide : List String
  deriving DecidableEq, Repr

/-- A source token, not yet the result of any replacement. -/
def fresh (t : Token) : PTok := ⟨t, []⟩

/-- Add macro names to the hide set of every token. -/
def hsadd (names : List String) (ts : List PTok) : List PTok :=
  ts.map fun t => ⟨t.tok, names ++ t.hide⟩

/-- Put a token at the front of the first collected argument. -/
def consFirst (t : PTok) :
    List (List PTok) × List String × List PTok → List (List PTok) × List String × List PTok
  | ([], h, r) => ([[t]], h, r)
  | (a :: as, h, r) => ((t :: a) :: as, h, r)

/-- Collect the arguments of a function-like macro invocation.  The input
starts right after the opening parenthesis; `depth` counts the parentheses
opened inside the arguments.  Returns the arguments, the hide set of the
closing parenthesis and the tokens after it; `none` when the closing
parenthesis is missing. -/
def collectArgs : Nat → List PTok → Option (List (List PTok) × List String × List PTok)
  | _, [] => none
  | depth, t :: ts =>
      if t.tok = rparen then
        match depth with
        | 0 => some ([[]], t.hide, ts)
        | d + 1 => (collectArgs d ts).map (consFirst t)
      else if t.tok = lparen then
        (collectArgs (depth + 1) ts).map (consFirst t)
      else if t.tok = Token.punct "," ∧ depth = 0 then
        (collectArgs 0 ts).map fun r => ([] :: r.1, r.2)
      else
        (collectArgs depth ts).map (consFirst t)

/-- Whether the number of collected arguments fits the parameter list: a
macro without parameters is invoked with one empty argument. -/
def arityOk (params : List String) (args : List (List PTok)) : Bool :=
  args.length == params.length || (params.isEmpty && args == [[]])

/-- The argument bound to a parameter name. -/
def argFor : List String → List (List PTok) → String → Option (List PTok)
  | p :: ps, a :: as, name => if p = name then some a else argFor ps as name
  | _, _, _ => none

/-- Substitute the arguments into a replacement list: a parameter is
replaced by its argument after the argument has been completely macro
replaced on its own (`expandArg`); other tokens are copied. -/
def substitute (expandArg : List PTok → Except PPError (List PTok))
    (params : List String) (args : List (List PTok)) :
    List Token → Except PPError (List PTok)
  | [] => Except.ok []
  | t :: ts =>
      match substitute expandArg params args ts with
      | Except.error e => Except.error e
      | Except.ok rest =>
          match t with
          | Token.ident name =>
              match argFor params args name with
              | some arg =>
                  match expandArg arg with
                  | Except.ok arg' => Except.ok (arg' ++ rest)
                  | Except.error e => Except.error e
              | none => Except.ok (fresh t :: rest)
          | _ => Except.ok (fresh t :: rest)

/-- Copy a token to the output and go on with the rest of the result. -/
def emit (t : PTok) : Except PPError (List PTok) → Except PPError (List PTok)
  | Except.ok r => Except.ok (t :: r)
  | Except.error e => Except.error e

/-- Macro replacement of a token sequence, with rescanning of each
replacement together with the tokens that follow it.  Every scanned token
uses one unit of fuel. -/
def expand (table : MacroTable) : Nat → List PTok → Except PPError (List PTok)
  | _, [] => Except.ok []
  | 0, _ :: _ => Except.error PPError.outOfFuel
  | fuel + 1, t :: rest =>
      match t.tok with
      | Token.ident name =>
          if name ∈ t.hide then emit t (expand table fuel rest)
          else
            match table.lookup name with
            | none => emit t (expand table fuel rest)
            | some (Macro.object body) =>
                expand table fuel (hsadd (name :: t.hide) (body.map fresh) ++ rest)
            | some (Macro.function params body) =>
                match rest with
                | [] => emit t (expand table fuel rest)
                | p :: rest' =>
                    if p.tok = lparen then
                      match collectArgs 0 rest' with
                      | none => Except.error PPError.unterminatedArguments
                      | some (args, closeHide, after) =>
                          if arityOk params args then
                            match substitute (expand table fuel) params args body with
                            | Except.ok body' =>
                                expand table fuel
                                  (hsadd (name :: t.hide.filter (· ∈ closeHide)) body' ++ after)
                            | Except.error e => Except.error e
                          else Except.error PPError.wrongArgumentCount
                    else emit t (expand table fuel rest)
      | _ => emit t (expand table fuel rest)

/-- Macro replacement of source tokens with a given fuel. -/
def expandTokens (table : MacroTable) (fuel : Nat) (ts : List Token) :
    Except PPError (List Token) :=
  match expand table fuel (ts.map fresh) with
  | Except.ok out => Except.ok (out.map PTok.tok)
  | Except.error e => Except.error e

/-- The sequence `ts` is completely macro replaced to `out`: every large
enough fuel gives this result. -/
def ExpandsTo (table : MacroTable) (ts out : List Token) : Prop :=
  ∃ n, ∀ fuel, n ≤ fuel → expandTokens table fuel ts = Except.ok out

/-- Macro replacement of `ts` after `warnings.h` has been included with the
given predefined names. -/
def Expansion (predefined : List Predefined) (ts out : List Token) : Prop :=
  ∃ table, headerMacros predefined = Except.ok table ∧ ExpandsTo table ts out

/-! ## Arguments and invocations -/

/-- The tokens of the invocation `name(arg)`. -/
def invoke (name : String) (arg : List Token) : List Token :=
  Token.ident name :: lparen :: (arg ++ [rparen])

/-- Scan an argument: the parenthesis depth after the tokens, `none` when a
parenthesis closes below the start or a comma stands outside parentheses. -/
def argDepth : Nat → List Token → Option Nat
  | depth, [] => some depth
  | depth, t :: ts =>
      if t = rparen then
        match depth with
        | 0 => none
        | d + 1 => argDepth d ts
      else if t = lparen then argDepth (depth + 1) ts
      else if t = Token.punct "," ∧ depth = 0 then none
      else argDepth depth ts

/-- The tokens form one macro argument: parentheses are balanced and no
comma stands outside them. -/
def IsArg (w : List Token) : Prop := argDepth 0 w = some 0

instance (w : List Token) : Decidable (IsArg w) := by
  unfold IsArg; infer_instance

/-- No identifier among the tokens names a macro of the table. -/
def MacroFree (table : MacroTable) (w : List Token) : Prop :=
  ∀ name, Token.ident name ∈ w → table.lookup name = none

/-- Every fuel from `n` on replaces `ts` by `out`. -/
def ExpandsFrom (table : MacroTable) (n : Nat) (ts out : List PTok) : Prop :=
  ∀ fuel, n ≤ fuel → expand table fuel ts = Except.ok out

/-- The item `item` is replaced by `out` whatever follows it: replacement of
the item never reads past its end. -/
def Passes (table : MacroTable) (item out : List Token) : Prop :=
  ∃ k o, o.map PTok.tok = out ∧ ∀ n rest outRest,
    ExpandsFrom table n rest outRest →
      ExpandsFrom table (n + k) (item.map fresh ++ rest) (o ++ outRest)

/-- The names of the six macros of the header. -/
def headerMacroNames : List String :=
  ["PUSH_WARNINGS", "POP_WARNINGS", "DISABLE_VS_WARNINGS", "DISABLE_GCC_WARNING",
   "DISABLE_CLANG_WARNING", "DISABLE_GCC_AND_CLANG_WARNING"]

/-- Whether a token is the name of one of the six macros of the header. -/
def Token.isMacroName : Token → Bool
  | Token.ident name => headerMacroNames.contains name
  | _ => false

/-- The tokens mention none of the six macros of the header. -/
def Plain (w : List Token) : Prop := ∀ t ∈ w, t.isMacroName = false

instance (w : List Token) : Decidable (Plain w) := by
  unfold Plain; infer_instance

/-- Whether a token is the name of a macro predefined by the toolchain. -/
def Token.isPredefined (predefined : List Predefined) : Token → Bool
  | Token.ident name => (predefinedNames predefined).contains name
  | _ => false

/-- The tokens mention no macro predefined by the toolchain. -/
def NoPredefined (predefined : List Predefined) (w : List Token) : Prop :=
  ∀ t ∈ w, t.isPredefined predefined = false

instance (predefined : List Predefined) (w : List Token) :
    Decidable (NoPredefined predefined w) := by
  unfold NoPredefined; infer_instance

/-- Whether a token is an identifier a toolchain may predefine. -/
def Token.isReserved : Token → Bool
  | Token.ident name => isToolchainName name
  | _ => false

/-- The tokens mention no identifier a toolchain may predefine. -/
def Unreserved (w : List Token) : Prop := ∀ t ∈ w, t.isReserved = false

instance (w : List Token) : Decidable (Unreserved w) := by
  unfold Unreserved; infer_instance

/-- The value of a predefined macro. -/
def predefinedValue : List Predefined → String → Option Nat
  | [], _ => none
  | p :: ps, name => if name == p.name then some p.value else predefinedValue ps name

/-- A token after the predefined macros have been replaced. -/
def replaceToken (predefined : List Predefined) : Token → Token
  | Token.ident name =>
      match predefinedValue predefined name with
      | some v => Token.number v
      | none => Token.ident name
  | t => t

/-- A token sequence after the predefined macros have been replaced. -/
def replacePredefined (predefined : List Predefined) (w : List Token) : List Token :=
  w.map (replaceToken predefined)

/-- The expansion `__pragma(warning(disable: w))`. -/
def vsDisableDirective (w : List Token) : List Token :=
  [Token.ident "__pragma", lparen, Token.ident "warning", lparen,
   Token.ident "disable", Token.punct ":"] ++ w ++ [rparen, rparen]

/-! ## Diagnostic state of the toolchain -/

/-- Modelled from the spec: a warning the toolchain can disable, which the
repository does not define: a numeric code (MSVC-like) or a named
diagnostic group (GCC-like and Clang-like). -/
inductive Warning where
  | code (n : Nat)
  | group (name : String)
  deriving DecidableEq, Repr

/-- Modelled from the spec: the diagnostic state of the compiler, which is
not part of the repository: the set of disabled warnings and the stack of
saved sets. -/
structure DiagState where
  disabled : List Warning
  saved : List (List Warning)
  deriving DecidableEq, Repr

/-- Modelled from the spec: what a native diagnostic directive asks for. -/
inductive DiagOp where
  | push
  | pop
  | disable (ws : List Warning)
  deriving DecidableEq, Repr

/-- Modelled from the spec: effect of a directive on the compiler's
diagnostic state: push saves the current set, pop restores the most recently
saved one (and does nothing on an empty stack), disable adds to the set. -/
def DiagState.apply (st : DiagState) : DiagOp → DiagState
  | DiagOp.push => { st with saved := st.disabled :: st.saved }
  | DiagOp.pop =>
      match st.saved with
      | [] => st
      | s :: rest => { disabled := s, saved := rest }
  | DiagOp.disable ws => { st with disabled := ws ++ st.disabled }

/-- Modelled from the spec: the warning codes of `disable: c1 c2 ... ))`
and the number of tokens read, closing parentheses included. -/
def takeCodes : List Token → Option (List Warning × Nat)
  | Token.number n :: ts => (takeCodes ts).map fun r => (Warning.code n :: r.1, r.2 + 1)
  | Token.punct p :: Token.punct q :: _ => if p = ")" ∧ q = ")" then some ([], 2) else none
  | _ => none

/-- Modelled from the spec: the group named by the pragma text
`GCC diagnostic ignored "-Wgroup"`. -/
def ignoredGroup (s : String) : Option String :=
  let head := "GCC diagnostic ignored \"-W".data
  if head.isPrefixOf s.data ∧ s.data.getLast? = some (Char.ofNat 34)
      ∧ head.length < s.data.length then
    some (String.mk ((s.data.drop head.length).dropLast))
  else none

/-- Modelled from the spec: the directive a `_Pragma` string stands for on
the GCC-like and Clang-like toolchains. -/
def gccDirective (s : String) : Option DiagOp :=
  if s = "GCC diagnostic push" then some DiagOp.push
  else if s = "GCC diagnostic pop" then some DiagOp.pop
  else (ignoredGroup s).map fun g => DiagOp.disable [Warning.group g]

/-- Modelled from the spec: the native directive that starts at the head of
the token sequence, with the number of tokens it spans.  MSVC-like:
`__pragma(warning(push))`, `__pragma(warning(pop))`,
`__pragma(warning(disable: codes))`; GCC-like and Clang-like:
`_Pragma("GCC diagnostic ...")`. -/
def directiveAt : Family → List Token → Option (DiagOp × Nat)
  | Family.msvc, ts =>
      if [Token.ident "__pragma", lparen, Token.ident "warning", lparen].isPrefixOf ts then
        match ts.drop 4 with
        | Token.ident op :: Token.punct p :: rest =>
            if op = "push" ∧ p = ")" ∧ rest.head? = some rparen then some (DiagOp.push, 7)
            else if op = "pop" ∧ p = ")" ∧ rest.head? = some rparen then some (DiagOp.pop, 7)
            else if op = "disable" ∧ p = ":" then
              (takeCodes rest).map fun r => (DiagOp.disable r.1, r.2 + 6)
            else none
        | _ => none
      else none
  | _, ts =>
      if [Token.ident "_Pragma", lparen].isPrefixOf ts then
        match ts.drop 2 with
        | Token.strLit s :: Token.punct p :: _ =>
            if p = ")" then (gccDirective s).map fun op => (op, 4) else none
        | _ => none
      else none

/-- Modelled from the spec: run the directives found in a token sequence
over the diagnostic state; `skip` counts the remaining tokens of a directive
already applied.  Tokens that are not part of a directive leave the state
alone. -/
def interpFrom (fam : Family) : Nat → DiagState → List Token → DiagState
  | _, st, [] => st
  | skip + 1, st, _ :: ts => interpFrom fam skip st ts
  | 0, st, t :: ts =>
      match directiveAt fam (t :: ts) with
      | some (op, span) => interpFrom fam (span - 1) (st.apply op) ts
      | none => interpFrom fam 0 st ts

/-- Modelled from the spec: the diagnostic state after a token sequence. -/
def interp (fam : Family) (st : DiagState) (ts : List Token) : DiagState :=
  interpFrom fam 0 st ts

/-- The macro that disables a warning on the given toolchain identity. -/
def nativeDisable : Family → String
  | Family.msvc => "DISABLE_VS_WARNINGS"
  | Family.clang => "DISABLE_CLANG_WARNING"
  | Family.gcc => "DISABLE_GCC_WARNING"

/-- The tokens a warning is written with as a macro argument. -/
def Warning.tokens : Warning → List Token
  | Warning.code n => [Token.number n]
  | Warning.group name => [Token.ident name]

/-- A warning the toolchain identity knows how to name: a numeric code on
the MSVC-like toolchain, elsewhere a group name that is not one of the
header's macros. -/
def Warning.validFor : Family → Warning → Bool
  | Family.msvc, Warning.code _ => true
  | Family.msvc, Warning.group _ => false
  | _, Warning.group g => !(headerMacroNames.contains g)
  | _, Warning.code _ => false

/-- The tokens `PUSH_WARNINGS disable(x)` that open a suppression scope for
`x` with the disable macro of the toolchain identity. -/
def scopeOpen (fam : Family) (x : Warning) : List Token :=
  Token.ident "PUSH_WARNINGS" :: invoke (nativeDisable fam) x.tokens

/-- The tokens `PUSH_WARNINGS disable(x) PUSH_WARNINGS disable(y)
POP_WARNINGS`: an outer scope for `x` around a closed inner scope for `y`. -/
def nestedScopes (fam : Family) (x y : Warning) : List Token :=
  scopeOpen fam x ++ scopeOpen fam y ++ [Token.ident "POP_WARNINGS"]

/-- An MSVC-like toolchain. -/
def msvcOnly : List Predefined := [⟨"_MSC_VER", 1900, rfl⟩]

/-- A Clang-like toolchain. -/
def clangOnly : List Predefined := [⟨"__clang__", 1, rfl⟩, ⟨"__GNUC__", 4, rfl⟩]

/-- A GCC-like toolchain. -/
def gccOnly : List Predefined := [⟨"__GNUC__", 12, rfl⟩]

theorem lookup_append_some {k : String} {v : Macro} (l₁ l₂ : MacroTable)
    (h : l₁.lookup k = some v) : (l₁ ++ l₂).lookup k = some v := by
  induction l₁ with
  | nil => simp [List.lookup] at h
  | cons e es ih =>
    obtain ⟨a, b⟩ := e
    cases hk : k == a
    · simp only [List.cons_append, List.lookup, hk] at h ⊢
      exact ih h
    · simp only [List.cons_append, List.lookup, hk] at h ⊢
      exact h

theorem lookup_append_none {k : String} (l₁ l₂ : MacroTable)
    (h : l₁.lookup k = none) : (l₁ ++ l₂).lookup k = l₂.lookup k := by
  induction l₁ with
  | nil => rfl
  | cons e es ih =>
    obtain ⟨a, b⟩ := e
    cases hk : k == a
    · simp only [List.cons_append, List.lookup, hk] at h ⊢
      exact ih h
    · simp [List.lookup, hk] at h

/-- A predefined macro is replaced by its value. -/
theorem lookup_predefinedMacros (predefined : List Predefined) (name : String) :
    (predefinedMacros predefined).lookup name
      = (predefinedValue predefined name).map fun v => Macro.object [Token.number v] := by
  induction predefined with
  | nil => rfl
  | cons p ps ih =>
    simp only [predefinedMacros, List.map_cons, List.lookup, predefinedValue]
    cases hk : name == p.name
    · simpa [predefinedMacros] using ih
    · simp

theorem predefinedValue_eq_none (predefined : List Predefined) (name : String)
    (h : name ∉ predefinedNames predefined) : predefinedValue predefined name = none := by
  induction predefined with
  | nil => rfl
  | cons p ps ih =>
    simp only [predefinedNames, List.map_cons, List.mem_cons, not_or] at h
    simp only [predefinedValue]
    have hk : (name == p.name) = false := beq_false_of_ne h.1
    simp only [hk]
    exact ih h.2

theorem predefinedValue_isSome (predefined : List Predefined) (name : String)
    (h : name ∈ predefinedNames predefined) : ∃ v, predefinedValue predefined name = some v := by
  induction predefined with
  | nil => simp [predefinedNames] at h
  | cons p ps ih =>
    simp only [predefinedValue]
    cases hk : name == p.name
    · simp only [predefinedNames, List.map_cons, List.mem_cons] at h
      rcases h with h | h
      · simp [h] at hk
      · exact ih h
    · exact ⟨_, rfl⟩

/-- Only reserved names are predefined. -/
theorem mem_predefinedNames_reserved (predefined : List Predefined) (name : String)
    (h : name ∈ predefinedNames predefined) : isToolchainName name = true := by
  simp only [predefinedNames, List.mem_map] at h
  obtain ⟨p, -, hp⟩ := h
  rw [← hp]
  exact p.reserved

theorem lookup_predefined_none (predefined : List Predefined) (name : String)
    (h : name ∉ predefinedNames predefined) :
    (predefinedMacros predefined).lookup name = none := by
  rw [lookup_predefinedMacros, predefinedValue_eq_none predefined name h]
  rfl

theorem lookup_predefined_isSome (predefined : List Predefined) (name : String) :
    ((predefinedMacros predefined).lookup name).isSome
      = decide (name ∈ predefinedNames predefined) := by
  by_cases h : name ∈ predefinedNames predefined
  · obtain ⟨v, hv⟩ := predefinedValue_isSome predefined name h
    simp [lookup_predefinedMacros, hv, h]
  · simp [lookup_predefined_none predefined name h, h]

/-- Including the header puts the definitions of the toolchain identity in
front of the predefined macros. -/
theorem headerMacros_eq (predefined : List Predefined) :
    headerMacros predefined = Except.ok (fullTable (family predefined) predefined) := by
  by_cases h1 : "_MSC_VER" ∈ predefinedNames predefined <;>
    by_cases h2 : "__clang__" ∈ predefinedNames predefined <;>
    simp [headerMacros, warningsH, runDirectives, stepDirective, isDefined, PPState.active,
      family, familyTable, fullTable, msvcTable, clangTable, gccTable, h1, h2, List.lookup,
      lookup_predefined_isSome]

theorem family_msvc {predefined : List Predefined}
    (h : "_MSC_VER" ∈ predefinedNames predefined) : family predefined = Family.msvc := by
  simp [family, h]

theorem family_clang {predefined : List Predefined}
    (h : "_MSC_VER" ∉ predefinedNames predefined)
    (hc : "__clang__" ∈ predefinedNames predefined) : family predefined = Family.clang := by
  simp [family, h, hc]

theorem family_gcc {predefined : List Predefined}
    (h : "_MSC_VER" ∉ predefinedNames predefined)
    (hc : "__clang__" ∉ predefinedNames predefined) : family predefined = Family.gcc := by
  simp [family, h, hc]

theorem family_ne_msvc {predefined : List Predefined}
    (h : "_MSC_VER" ∉ predefinedNames predefined) : family predefined ≠ Family.msvc := by
  simp [family, h]
  split <;> simp

/-- A name the header defines for the identity keeps that definition. -/
theorem fullTable_header (fam : Family) (predefined : List Predefined) {name : String}
    {m : Macro} (h : (familyTable fam).lookup name = some m) :
    (fullTable fam predefined).lookup name = some m :=
  lookup_append_some _ _ h

/-- A name the header does not define and the toolchain cannot predefine is
no macro. -/
theorem fullTable_none (fam : Family) (predefined : List Predefined) {name : String}
    (h : (familyTable fam).lookup name = none) (hn : name ∉ predefinedNames predefined) :
    (fullTable fam predefined).lookup name = none := by
  rw [fullTable, lookup_append_none _ _ h]
  exact lookup_predefined_none predefined name hn

theorem not_predefined_of_not_reserved (predefined : List Predefined) {name : String}
    (h : isToolchainName name = false) : name ∉ predefinedNames predefined := by
  intro hm
  rw [mem_predefinedNames_reserved predefined name hm] at h
  cases h

/-! ## Facts about macro replacement -/

/-- A token that is not a replaceable macro name is copied to the output. -/
theorem expand_skip (table : MacroTable) (fuel : Nat) (t : PTok) (rest : List PTok)
    (h : ∀ name, t.tok = Token.ident name → table.lookup name = none) :
    expand table (fuel + 1) (t :: rest) = emit t (expand table fuel rest) := by
  rw [expand]
  split
  · rename_i name hn
    have hl := h name hn
    split
    · rfl
    · simp [hl]
  · rfl

/-- An object-like macro name is replaced by its replacement list, which is
rescanned together with the rest. -/
theorem expand_object (table : MacroTable) (fuel : Nat) (name : String) (body : List Token)
    (rest : List PTok) (hl : table.lookup name = some (Macro.object body)) :
    expand table (fuel + 1) (fresh (Token.ident name) :: rest)
      = expand table fuel (hsadd [name] (body.map fresh) ++ rest) := by
  rw [expand]
  simp [fresh, hl]

/-- A function-like macro name followed by a complete argument list is
replaced by its replacement list with the arguments substituted. -/
theorem expand_call (table : MacroTable) (fuel : Nat) (name : String)
    (params : List String) (body : List Token) (rest after : List PTok)
    (args : List (List PTok)) (closeHide : List String) (body' : List PTok)
    (hl : table.lookup name = some (Macro.function params body))
    (hc : collectArgs 0 rest = some (args, closeHide, after))
    (ha : arityOk params args = true)
    (hs : substitute (expand table fuel) params args body = Except.ok body') :
    expand table (fuel + 1) (fresh (Token.ident name) :: fresh lparen :: rest)
      = expand table fuel (hsadd [name] body' ++ after) := by
  rw [expand]
  simp [fresh, hl, hc, ha, hs]

theorem expandsFrom_nil (table : MacroTable) (n : Nat) : ExpandsFrom table n [] [] := by
  intro fuel _
  cases fuel <;> rfl

theorem expandsFrom_skip (table : MacroTable) (n : Nat) (t : PTok) (rest out : List PTok)
    (h : ∀ name, t.tok = Token.ident name → table.lookup name = none)
    (hr : ExpandsFrom table n rest out) : ExpandsFrom table (n + 1) (t :: rest) (t :: out) := by
  intro fuel hf
  obtain ⟨f, rfl⟩ : ∃ f, fuel = f + 1 := ⟨fuel - 1, by omega⟩
  rw [expand_skip table f t rest h, hr f (by omega)]
  rfl

/-- A prefix without macro names is copied and replacement goes on after it. -/
theorem expandsFrom_front (table : MacroTable) (pre : List PTok)
    (h : MacroFree table (pre.map PTok.tok)) (n : Nat) (rest out : List PTok)
    (hr : ExpandsFrom table n rest out) :
    ExpandsFrom table (n + pre.length) (pre ++ rest) (pre ++ out) := by
  induction pre with
  | nil => simpa using hr
  | cons t pre ih =>
    have hpre : MacroFree table (pre.map PTok.tok) := by
      intro name hn
      exact h name (by simp [hn])
    have hstep := expandsFrom_skip table _ t _ _
      (fun name hn => h name (by simp [← hn])) (ih hpre)
    have hlen : n + (t :: pre).length = n + pre.length + 1 := by simp; omega
    rw [hlen]
    exact hstep

theorem expandsFrom_object (table : MacroTable) (n : Nat) (name : String) (body : List Token)
    (rest out : List PTok) (hl : table.lookup name = some (Macro.object body))
    (hr : ExpandsFrom table n (hsadd [name] (body.map fresh) ++ rest) out) :
    ExpandsFrom table (n + 1) (fresh (Token.ident name) :: rest) out := by
  intro fuel hf
  obtain ⟨f, rfl⟩ : ∃ f, fuel = f + 1 := ⟨fuel - 1, by omega⟩
  rw [expand_object table f name body rest hl]
  exact hr f (by omega)

/-- The argument collector returns a well-formed argument as the single
argument of the invocation. -/
theorem collectArgs_isArg (closeHide : List String) (after : List PTok) (ws : List PTok) :
    ∀ depth, argDepth depth (ws.map PTok.tok) = some 0 →
      collectArgs depth (ws ++ ⟨rparen, closeHide⟩ :: after) = some ([ws], closeHide, after) := by
  induction ws with
  | nil =>
    intro depth h
    simp [argDepth] at h
    subst h
    simp [collectArgs]
  | cons t ts ih =>
    intro depth h
    simp only [List.map_cons, argDepth] at h
    simp only [List.cons_append, collectArgs]
    split at h
    · rename_i ht
      simp only [ht, if_true]
      cases depth with
      | zero => simp at h
      | succ d =>
        simp only at h
        simp [ih d h, consFirst]
    · rename_i ht
      simp only [ht, if_false]
      split at h
      · rename_i ht2
        simp [ht2, ih _ h, consFirst]
      · rename_i ht2
        simp only [ht2, if_false]
        split at h
        · simp at h
        · rename_i ht3
          simp [ht3, ih _ h, consFirst]

/-- Complete macro replacement has at most one result. -/
theorem expandsTo_unique {table : MacroTable} {ts out₁ out₂ : List Token}
    (h₁ : ExpandsTo table ts out₁) (h₂ : ExpandsTo table ts out₂) : out₁ = out₂ := by
  obtain ⟨n₁, h₁⟩ := h₁
  obtain ⟨n₂, h₂⟩ := h₂
  have e₁ := h₁ (max n₁ n₂) (le_max_left _ _)
  have e₂ := h₂ (max n₁ n₂) (le_max_right _ _)
  rw [e₁] at e₂
  exact Except.ok.inj e₂

/-- Replacement after the header is replacement with the whole table of the
toolchain identity. -/
theorem expansion_iff (predefined : List Predefined) (ts out : List Token) :
    Expansion predefined ts out
      ↔ ExpandsTo (fullTable (family predefined) predefined) ts out := by
  unfold Expansion
  rw [headerMacros_eq]
  constructor
  · rintro ⟨table, ht, h⟩
    cases ht
    exact h
  · intro h
    exact ⟨_, rfl, h⟩

theorem expansion_unique {predefined : List Predefined} {ts out₁ out₂ : List Token}
    (h₁ : Expansion predefined ts out₁) (h₂ : Expansion predefined ts out₂) : out₁ = out₂ :=
  expandsTo_unique ((expansion_iff _ _ _).1 h₁) ((expansion_iff _ _ _).1 h₂)

theorem map_tok_map_fresh (w : List Token) : (w.map fresh).map PTok.tok = w := by
  induction w with
  | nil => rfl
  | cons t ts ih => simp [fresh, ih]

theorem Passes.append {table : MacroTable} {i₁ o₁ i₂ o₂ : List Token}
    (h₁ : Passes table i₁ o₁) (h₂ : Passes table i₂ o₂) :
    Passes table (i₁ ++ i₂) (o₁ ++ o₂) := by
  obtain ⟨k₁, p₁, e₁, h₁⟩ := h₁
  obtain ⟨k₂, p₂, e₂, h₂⟩ := h₂
  refine ⟨k₂ + k₁, p₁ ++ p₂, by simp [e₁, e₂], ?_⟩
  intro n rest outRest hr
  have := h₁ (n + k₂) (i₂.map fresh ++ rest) (p₂ ++ outRest) (h₂ n rest outRest hr)
  simpa [Nat.add_assoc] using this

theorem Passes.expandsTo {table : MacroTable} {item out : List Token}
    (h : Passes table item out) : ExpandsTo table item out := by
  obtain ⟨k, o, e, h⟩ := h
  refine ⟨0 + k, fun fuel hf => ?_⟩
  have := h 0 [] [] (expandsFrom_nil table 0) fuel hf
  simp only [List.append_nil] at this
  simp [expandTokens, this, e]

/-- Replacement of an item on its own, as for a macro argument. -/
theorem Passes.alone {table : MacroTable} {item out : List Token}
    (h : Passes table item out) :
    ∃ k o, o.map PTok.tok = out ∧ ExpandsFrom table k (item.map fresh) o := by
  obtain ⟨k, o, e, h⟩ := h
  refine ⟨0 + k, o, e, ?_⟩
  have := h 0 [] [] (expandsFrom_nil table 0)
  simpa using this

/-- Tokens that name no macro are copied. -/
theorem passes_plain (table : MacroTable) (w : List Token) (h : MacroFree table w) :
    Passes table w w := by
  refine ⟨w.length, w.map fresh, map_tok_map_fresh w, ?_⟩
  intro n rest outRest hr
  have := expandsFrom_front table (w.map fresh) (by rwa [map_tok_map_fresh]) n rest outRest hr
  simpa using this

theorem macroFree_hsadd (table : MacroTable) (names : List String) (ts : List PTok)
    (h : MacroFree table (ts.map PTok.tok)) :
    MacroFree table ((hsadd names ts).map PTok.tok) := by
  have : (hsadd names ts).map PTok.tok = ts.map PTok.tok := by
    simp [hsadd, Function.comp_def]
  rwa [this]

/-- An object-like macro whose replacement list names no macro is replaced
by that list. -/
theorem passes_object (table : MacroTable) (name : String) (body : List Token)
    (hl : table.lookup name = some (Macro.object body)) (hb : MacroFree table body) :
    Passes table [Token.ident name] body := by
  refine ⟨body.length + 1, hsadd [name] (body.map fresh), ?_, ?_⟩
  · simp [hsadd, Function.comp_def, fresh]
  · intro n rest outRest hr
    have hp := expandsFrom_front table (hsadd [name] (body.map fresh))
      (macroFree_hsadd table _ _ (by rwa [map_tok_map_fresh])) n rest outRest hr
    have hlen : (hsadd [name] (body.map fresh)).length = body.length := by simp [hsadd]
    rw [hlen] at hp
    rw [← Nat.add_assoc]
    exact expandsFrom_object table _ name body rest _ hl hp

theorem invoke_fresh (name : String) (w : List Token) (rest : List PTok) :
    (invoke name w).map fresh ++ rest
      = fresh (Token.ident name) :: fresh lparen :: (w.map fresh ++ ⟨rparen, []⟩ :: rest) := by
  simp [invoke, fresh]

/-- A one-parameter function-like macro with an empty replacement list
swallows its invocation. -/
theorem passes_empty_call (table : MacroTable) (name p : String) (w : List Token)
    (hl : table.lookup name = some (Macro.function [p] [])) (hw : IsArg w) :
    Passes table (invoke name w) [] := by
  refine ⟨1, [], rfl, ?_⟩
  intro n rest outRest hr fuel hf
  obtain ⟨f, rfl⟩ : ∃ f, fuel = f + 1 := ⟨fuel - 1, by omega⟩
  rw [invoke_fresh, expand_call table f name [p] [] _ rest [w.map fresh] [] [] hl
    (collectArgs_isArg [] rest (w.map fresh) 0 (by rw [map_tok_map_fresh]; exact hw))
    (by simp [arityOk]) (by simp [substitute])]
  simpa [hsadd] using hr f (by omega)

/-! ## Replacement with the tables of the header -/

theorem header_lookup_none (fam : Family) {name : String} (h : name ∉ headerMacroNames) :
    (familyTable fam).lookup name = none := by
  simp [headerMacroNames] at h
  obtain ⟨h1, h2, h3, h4, h5, h6⟩ := h
  have b1 : (name == "PUSH_WARNINGS") = false := beq_false_of_ne h1
  have b2 : (name == "POP_WARNINGS") = false := beq_false_of_ne h2
  have b3 : (name == "DISABLE_VS_WARNINGS") = false := beq_false_of_ne h3
  have b4 : (name == "DISABLE_GCC_WARNING") = false := beq_false_of_ne h4
  have b5 : (name == "DISABLE_CLANG_WARNING") = false := beq_false_of_ne h5
  have b6 : (name == "DISABLE_GCC_AND_CLANG_WARNING") = false := beq_false_of_ne h6
  cases fam <;>
    simp only [familyTable, msvcTable, clangTable, gccTable, List.lookup, b1, b2, b3, b4, b5, b6]

theorem plain_not_header {w : List Token} (h : Plain w) {name : String}
    (hn : Token.ident name ∈ w) : name ∉ headerMacroNames := by
  simpa [Token.isMacroName] using h _ hn

theorem noPredefined_not_mem {predefined : List Predefined} {w : List Token}
    (h : NoPredefined predefined w) {name : String} (hn : Token.ident name ∈ w) :
    name ∉ predefinedNames predefined := by
  simpa [Token.isPredefined] using h _ hn

theorem unreserved_noPredefined (predefined : List Predefined) {w : List Token}
    (h : Unreserved w) : NoPredefined predefined w := by
  intro t ht
  cases t with
  | ident name =>
    have hr : isToolchainName name = false := by simpa [Token.isReserved] using h _ ht
    have := not_predefined_of_not_reserved predefined hr
    simpa [Token.isPredefined] using this
  | number _ => rfl
  | punct _ => rfl
  | strLit _ => rfl

/-- Tokens that mention neither a macro of the header nor a predefined one
name no macro at all. -/
theorem plain_macroFree (fam : Family) (predefined : List Predefined) (w : List Token)
    (h : Plain w) (hp : NoPredefined predefined w) :
    MacroFree (fullTable fam predefined) w := by
  intro name hn
  exact fullTable_none fam predefined (header_lookup_none fam (plain_not_header h hn))
    (noPredefined_not_mem hp hn)

theorem macroFree_append {table : MacroTable} {a b : List Token}
    (ha : MacroFree table a) (hb : MacroFree table b) : MacroFree table (a ++ b) := by
  intro name hn
  rcases List.mem_append.1 hn with h | h
  · exact ha name h
  · exact hb name h

/-- A token other than a macro name of the header is copied, or replaced by
its value when the toolchain predefines it. -/
theorem passes_token (fam : Family) (predefined : List Predefined) (t : Token)
    (ht : t.isMacroName = false) :
    Passes (fullTable fam predefined) [t] [replaceToken predefined t] := by
  cases t with
  | ident name =>
    have hh : (familyTable fam).lookup name = none :=
      header_lookup_none fam (by simpa [Token.isMacroName] using ht)
    have hl : (fullTable fam predefined).lookup name
        = (predefinedValue predefined name).map fun v => Macro.object [Token.number v] := by
      rw [fullTable, lookup_append_none _ _ hh, lookup_predefinedMacros]
    cases hv : predefinedValue predefined name with
    | none =>
      simp only [replaceToken, hv]
      refine passes_plain _ _ ?_
      intro n hn
      simp only [List.mem_singleton, Token.ident.injEq] at hn
      subst hn
      simp [hl, hv]
    | some v =>
      simp only [replaceToken, hv]
      refine passes_object _ name [Token.number v] (by simp [hl, hv]) ?_
      intro n hn
      simp at hn
  | number v => exact passes_plain _ _ (by intro n hn; simp at hn)
  | punct x => exact passes_plain _ _ (by intro n hn; simp at hn)
  | strLit x => exact passes_plain _ _ (by intro n hn; simp at hn)

/-- Tokens that mention no macro of the header are copied, with the
predefined macros among them replaced by their values. -/
theorem passes_replace (fam : Family) (predefined : List Predefined) (w : List Token)
    (h : Plain w) :
    Passes (fullTable fam predefined) w (replacePredefined predefined w) := by
  induction w with
  | nil => exact passes_plain _ _ (by intro n hn; simp at hn)
  | cons t ts ih =>
    have ht := passes_token fam predefined t (h t (by simp))
    have hts := ih (fun u hu => h u (by simp [hu]))
    exact ht.append hts

theorem replaceToken_eq_self (predefined : List Predefined) (t : Token)
    (h : t.isPredefined predefined = false) : replaceToken predefined t = t := by
  cases t with
  | ident name =>
    have hn : name ∉ predefinedNames predefined := by simpa [Token.isPredefined] using h
    simp [replaceToken, predefinedValue_eq_none predefined name hn]
  | number _ => rfl
  | punct _ => rfl
  | strLit _ => rfl

/-- Tokens that mention no predefined macro are left as written. -/
theorem replacePredefined_eq_self (predefined : List Predefined) (w : List Token)
    (h : NoPredefined predefined w) : replacePredefined predefined w = w := by
  induction w with
  | nil => rfl
  | cons t ts ih =>
    simp only [replacePredefined, List.map_cons]
    rw [replaceToken_eq_self predefined t (h t (by simp))]
    have := ih (fun u hu => h u (by simp [hu]))
    simp only [replacePredefined] at this
    rw [this]

theorem macroFree_replace (fam : Family) (predefined : List Predefined) (w : List Token)
    (h : Plain w) : MacroFree (fullTable fam predefined) (replacePredefined predefined w) := by
  intro name hn
  simp only [replacePredefined, List.mem_map] at hn
  obtain ⟨t, ht, e⟩ := hn
  cases t with
  | ident n =>
    cases hv : predefinedValue predefined n with
    | none =>
      simp only [replaceToken, hv, Token.ident.injEq] at e
      subst e
      have hh := header_lookup_none fam (plain_not_header h ht)
      rw [fullTable, lookup_append_none _ _ hh, lookup_predefinedMacros, hv]
      rfl
    | some v => simp [replaceToken, hv] at e
  | number _ => simp [replaceToken] at e
  | punct _ => simp [replaceToken] at e
  | strLit _ => simp [replaceToken] at e

/-- Tokens fixed by the header: they mention neither one of its macros nor
a name a toolchain may predefine. -/
theorem fixed_macroFree (fam : Family) (predefined : List Predefined) (w : List Token)
    (h : Plain w) (hu : Unreserved w) : MacroFree (fullTable fam predefined) w :=
  plain_macroFree fam predefined w h (unreserved_noPredefined predefined hu)

/-- The expansion of `DISABLE_VS_WARNINGS(w)` under `_MSC_VER`, where the
argument on its own is replaced by `w'`. -/
theorem passes_vs (predefined : List Predefined) (w w' : List Token) (ha : IsArg w)
    (hw : Passes (fullTable Family.msvc predefined) w w')
    (hfree : MacroFree (fullTable Family.msvc predefined) w') :
    Passes (fullTable Family.msvc predefined) (invoke "DISABLE_VS_WARNINGS" w)
      (vsDisableDirective w') := by
  obtain ⟨kw, ow, eow, hwx⟩ := hw.alone
  have htok : (hsadd ["DISABLE_VS_WARNINGS"]
      ([Token.ident "__pragma", lparen, Token.ident "warning", lparen,
        Token.ident "disable", Token.punct ":"].map fresh ++ ow
        ++ [fresh rparen, fresh rparen])).map PTok.tok = vsDisableDirective w' := by
    simp [hsadd, Function.comp_def, fresh, vsDisableDirective, ← eow]
  refine ⟨kw + (ow.length + 8) + 1, _, htok, ?_⟩
  intro n rest outRest hr fuel hf
  obtain ⟨f, rfl⟩ : ∃ f, fuel = f + 1 := ⟨fuel - 1, by omega⟩
  have harg : expand (fullTable Family.msvc predefined) f (w.map fresh) = Except.ok ow :=
    hwx f (by omega)
  have hs : substitute (expand (fullTable Family.msvc predefined) f) ["w"] [w.map fresh]
      msvcDisableBody = Except.ok
        ([Token.ident "__pragma", lparen, Token.ident "warning", lparen,
          Token.ident "disable", Token.punct ":"].map fresh ++ ow
          ++ [fresh rparen, fresh rparen]) := by
    simp [substitute, msvcDisableBody, argFor, harg, lparen, rparen]
  have hfree' : MacroFree (fullTable Family.msvc predefined) (vsDisableDirective w') := by
    unfold vsDisableDirective
    refine macroFree_append (macroFree_append ?_ hfree) ?_
    · exact fixed_macroFree _ _ _ (by decide) (by decide)
    · exact fixed_macroFree _ _ _ (by decide) (by decide)
  have hp := expandsFrom_front (fullTable Family.msvc predefined) _
    (by rw [htok]; exact hfree') n rest outRest hr
  rw [invoke_fresh,
    expand_call _ f "DISABLE_VS_WARNINGS" ["w"] msvcDisableBody _ rest [w.map fresh] [] _
      (fullTable_header Family.msvc predefined rfl)
      (collectArgs_isArg [] rest (w.map fresh) 0 (by rw [map_tok_map_fresh]; exact ha))
      (by simp [arityOk]) hs]
  refine hp f ?_
  simp [hsadd]
  omega

theorem expansion_of_passes {predefined : List Predefined} {fam : Family} {ts out : List Token}
    (hf : family predefined = fam) (h : Passes (fullTable fam predefined) ts out) :
    Expansion predefined ts out := by
  rw [expansion_iff, hf]
  exact h.expandsTo

theorem passes_push (fam : Family) (predefined : List Predefined) :
    Passes (fullTable fam predefined) [Token.ident "PUSH_WARNINGS"]
      (if fam = Family.msvc then msvcPushBody else gccPushBody) := by
  cases fam
  · exact passes_object _ _ _ (fullTable_header Family.msvc predefined rfl)
      (fixed_macroFree _ _ _ (by decide) (by decide))
  · exact passes_object _ _ _ (fullTable_header Family.clang predefined rfl)
      (fixed_macroFree _ _ _ (by decide) (by decide))
  · exact passes_object _ _ _ (fullTable_header Family.gcc predefined rfl)
      (fixed_macroFree _ _ _ (by decide) (by decide))

theorem passes_pop (fam : Family) (predefined : List Predefined) :
    Passes (fullTable fam predefined) [Token.ident "POP_WARNINGS"]
      (if fam = Family.msvc then msvcPopBody else gccPopBody) := by
  cases fam
  · exact passes_object _ _ _ (fullTable_header Family.msvc predefined rfl)
      (fixed_macroFree _ _ _ (by decide) (by decide))
  · exact passes_object _ _ _ (fullTable_header Family.clang predefined rfl)
      (fixed_macroFree _ _ _ (by decide) (by decide))
  · exact passes_object _ _ _ (fullTable_header Family.gcc predefined rfl)
      (fixed_macroFree _ _ _ (by decide) (by decide))

/-- Without `_MSC_VER` no `DISABLE_GCC_AND_CLANG_WARNING` is defined. -/
theorem lookup_both_none (fam : Family) (predefined : List Predefined)
    (hf : fam ≠ Family.msvc) :
    (fullTable fam predefined).lookup "DISABLE_GCC_AND_CLANG_WARNING" = none := by
  refine fullTable_none fam predefined ?_ (not_predefined_of_not_reserved predefined (by decide))
  cases fam
  · exact absurd rfl hf
  · rfl
  · rfl

/-- Without `_MSC_VER` the disable macro of the family is an alias. -/
theorem lookup_native_alias (fam : Family) (predefined : List Predefined)
    (hf : fam ≠ Family.msvc) :
    (fullTable fam predefined).lookup (nativeDisable fam)
      = some (Macro.object [Token.ident "DISABLE_GCC_AND_CLANG_WARNING"]) := by
  refine fullTable_header fam predefined ?_
  cases fam
  · exact absurd rfl hf
  · rfl
  · rfl

theorem macroFree_both (fam : Family) (predefined : List Predefined) (hf : fam ≠ Family.msvc) :
    MacroFree (fullTable fam predefined) [Token.ident "DISABLE_GCC_AND_CLANG_WARNING"] := by
  intro n hn
  simp only [List.mem_singleton, Token.ident.injEq] at hn
  subst hn
  exact lookup_both_none fam predefined hf

theorem passes_paren (fam : Family) (predefined : List Predefined) (p : String) :
    Passes (fullTable fam predefined) [Token.punct p] [Token.punct p] :=
  passes_plain _ _ (by intro n hn; simp at hn)

/-- The unreplaced invocation: its name stays, its argument is scanned. -/
theorem passes_unreplaced (fam : Family) (predefined : List Predefined)
    (hf : fam ≠ Family.msvc) (w : List Token) (hw : Plain w) :
    Passes (fullTable fam predefined) (invoke "DISABLE_GCC_AND_CLANG_WARNING" w)
      (invoke "DISABLE_GCC_AND_CLANG_WARNING" (replacePredefined predefined w)) :=
  (passes_plain _ _ (macroFree_both fam predefined hf)).append
    ((passes_paren fam predefined "(").append
      ((passes_replace fam predefined w hw).append (passes_paren fam predefined ")")))

/-- The alias of the family is replaced by the unreplaced name in front of
the scanned argument list. -/
theorem passes_native_alias (fam : Family) (predefined : List Predefined)
    (hf : fam ≠ Family.msvc) (w : List Token) (hw : Plain w) :
    Passes (fullTable fam predefined) (invoke (nativeDisable fam) w)
      (invoke "DISABLE_GCC_AND_CLANG_WARNING" (replacePredefined predefined w)) :=
  (passes_object _ _ _ (lookup_native_alias fam predefined hf)
      (macroFree_both fam predefined hf)).append
    ((passes_paren fam predefined "(").append
      ((passes_replace fam predefined w hw).append (passes_paren fam predefined ")")))

/-- An alias of a name that is not a macro is replaced like that name,
whatever tokens follow. -/
theorem alias_step (table : MacroTable) (name target : String) (rest : List PTok)
    (hl : table.lookup name = some (Macro.object [Token.ident target]))
    (ht : table.lookup target = none) (fuel : Nat) :
    expand table (fuel + 2) (fresh (Token.ident name) :: rest)
      = emit ⟨Token.ident target, [name]⟩ (expand table fuel rest) := by
  rw [expand_object table (fuel + 1) name _ _ hl]
  exact expand_skip table fuel _ _ (fun n hn => by cases hn; exact ht)

theorem alias_shift (table : MacroTable) (name target : String) (rest : List Token)
    (hl : table.lookup name = some (Macro.object [Token.ident target]))
    (ht : table.lookup target = none) (fuel : Nat) :
    expandTokens table (fuel + 2) (Token.ident name :: rest)
      = expandTokens table (fuel + 1) (Token.ident target :: rest) := by
  have h1 := alias_step table name target (rest.map fresh) hl ht fuel
  have h2 : expand table (fuel + 1) (fresh (Token.ident target) :: rest.map fresh)
      = emit (fresh (Token.ident target)) (expand table fuel (rest.map fresh)) :=
    expand_skip table fuel _ _ (fun n hn => by cases hn; exact ht)
  simp only [expandTokens, List.map_cons, h1, h2]
  cases expand table fuel (rest.map fresh) <;> simp [emit, fresh]

theorem alias_expandsTo_iff (table : MacroTable) (name target : String) (rest out : List Token)
    (hl : table.lookup name = some (Macro.object [Token.ident target]))
    (ht : table.lookup target = none) :
    ExpandsTo table (Token.ident name :: rest) out
      ↔ ExpandsTo table (Token.ident target :: rest) out := by
  constructor
  · rintro ⟨n, h⟩
    refine ⟨n + 1, fun fuel hf => ?_⟩
    obtain ⟨f, rfl⟩ : ∃ f, fuel = f + 1 := ⟨fuel - 1, by omega⟩
    rw [← alias_shift table name target rest hl ht f]
    exact h _ (by omega)
  · rintro ⟨n, h⟩
    refine ⟨n + 2, fun fuel hf => ?_⟩
    obtain ⟨f, rfl⟩ : ∃ f, fuel = f + 2 := ⟨fuel - 2, by omega⟩
    rw [alias_shift table name target rest hl ht f]
    exact h _ (by omega)

/-- Whatever follows an alias of a name that is not a macro, the result
starts with that name. -/
theorem alias_head (table : MacroTable) (name target : String) (rest out : List Token)
    (hl : table.lookup name = some (Macro.object [Token.ident target]))
    (ht : table.lookup target = none)
    (h : ExpandsTo table (Token.ident name :: rest) out) :
    ∃ tail, out = Token.ident target :: tail := by
  obtain ⟨n, h⟩ := h
  have e := h (n + 2) (by omega)
  have h1 := alias_step table name target (rest.map fresh) hl ht n
  simp only [expandTokens, List.map_cons, h1] at e
  cases hr : expand table n (rest.map fresh) with
  | error err => simp [hr, emit] at e
  | ok r =>
    simp only [hr, emit, List.map_cons, Except.ok.injEq] at e
    exact ⟨_, e.symm⟩

/-! ## Facts about the diagnostic state -/

theorem interp_msvc_push (st : DiagState) (rest : List Token) :
    interpFrom Family.msvc 0 st (msvcPushBody ++ rest)
      = interpFrom Family.msvc 0 (st.apply DiagOp.push) rest := by
  simp [msvcPushBody, interpFrom, directiveAt, lparen, rparen]

theorem interp_msvc_pop (st : DiagState) (rest : List Token) :
    interpFrom Family.msvc 0 st (msvcPopBody ++ rest)
      = interpFrom Family.msvc 0 (st.apply DiagOp.pop) rest := by
  simp [msvcPopBody, interpFrom, directiveAt, lparen, rparen]

theorem interp_msvc_disable (st : DiagState) (n : Nat) (rest : List Token) :
    interpFrom Family.msvc 0 st (vsDisableDirective [Token.number n] ++ rest)
      = interpFrom Family.msvc 0 (st.apply (DiagOp.disable [Warning.code n])) rest := by
  simp [vsDisableDirective, interpFrom, directiveAt, takeCodes, lparen, rparen]

theorem interp_gcc_push (fam : Family) (hf : fam ≠ Family.msvc) (st : DiagState)
    (rest : List Token) :
    interpFrom fam 0 st (gccPushBody ++ rest) = interpFrom fam 0 (st.apply DiagOp.push) rest := by
  cases fam <;>
    simp [gccPushBody, interpFrom, directiveAt, gccDirective, lparen, rparen] at hf ⊢

theorem interp_gcc_pop (fam : Family) (hf : fam ≠ Family.msvc) (st : DiagState)
    (rest : List Token) :
    interpFrom fam 0 st (gccPopBody ++ rest) = interpFrom fam 0 (st.apply DiagOp.pop) rest := by
  cases fam <;>
    simp [gccPopBody, interpFrom, directiveAt, gccDirective, lparen, rparen] at hf ⊢

/-- The unreplaced tokens `DISABLE_GCC_AND_CLANG_WARNING ( t )` are no
directive of the GCC-like and Clang-like toolchains. -/
theorem interp_unreplaced (fam : Family) (hf : fam ≠ Family.msvc) (st : DiagState)
    (t : Token) (rest : List Token) :
    interpFrom fam 0 st (invoke "DISABLE_GCC_AND_CLANG_WARNING" [t] ++ rest)
      = interpFrom fam 0 st rest := by
  cases fam <;>
    simp [invoke, interpFrom, directiveAt, lparen, rparen] at hf ⊢

theorem apply_push_pop (st : DiagState) : (st.apply DiagOp.push).apply DiagOp.pop = st := rfl

/-- The pragma that would disable group `unused` does disable it in the
model of the GCC-like toolchain. -/
theorem interp_ignored_unused :
    interp Family.gcc ⟨[], []⟩
        [Token.ident "_Pragma", Token.punct "(",
          Token.strLit "GCC diagnostic ignored \"-Wunused\"", Token.punct ")"]
      = ⟨[Warning.group "unused"], []⟩ := by
  decide

/-! ## Nested suppression scopes -/

theorem macroFree_number (table : MacroTable) (n : Nat) : MacroFree table [Token.number n] := by
  intro name hn
  simp at hn

theorem passes_scopeOpen_msvc (predefined : List Predefined) (n : Nat) :
    Passes (fullTable Family.msvc predefined) (scopeOpen Family.msvc (Warning.code n))
      (msvcPushBody ++ vsDisableDirective [Token.number n]) := by
  have hpush : Passes (fullTable Family.msvc predefined) [Token.ident "PUSH_WARNINGS"]
      msvcPushBody := by
    simpa using passes_push Family.msvc predefined
  exact hpush.append
    (passes_vs predefined [Token.number n] [Token.number n]
      (by simp [IsArg, argDepth, lparen, rparen])
      (passes_plain _ _ (macroFree_number _ n)) (macroFree_number _ n))

theorem plain_ident {g : String} (hg : g ∉ headerMacroNames) : Plain [Token.ident g] := by
  intro t ht
  simp at ht
  subst ht
  simpa [Token.isMacroName] using hg

theorem passes_scopeOpen_other (fam : Family) (predefined : List Predefined)
    (hf : fam ≠ Family.msvc) (g : String) (hg : g ∉ headerMacroNames) :
    Passes (fullTable fam predefined) (scopeOpen fam (Warning.group g))
      (gccPushBody ++ invoke "DISABLE_GCC_AND_CLANG_WARNING"
        [replaceToken predefined (Token.ident g)]) := by
  have hpush : Passes (fullTable fam predefined) [Token.ident "PUSH_WARNINGS"] gccPushBody := by
    simpa [hf] using passes_push fam predefined
  exact hpush.append (passes_native_alias fam predefined hf [Token.ident g] (plain_ident hg))

/-- Nested scopes on the MSVC-like toolchain. -/
theorem nested_msvc (predefined : List Predefined) (n m : Nat) (st : DiagState) :
    ∃ o₂ o₅ o₆,
      Passes (fullTable Family.msvc predefined) (scopeOpen Family.msvc (Warning.code n)) o₂ ∧
      Passes (fullTable Family.msvc predefined)
        (nestedScopes Family.msvc (Warning.code n) (Warning.code m)) o₅ ∧
      Passes (fullTable Family.msvc predefined)
        (nestedScopes Family.msvc (Warning.code n) (Warning.code m)
          ++ [Token.ident "POP_WARNINGS"]) o₆ ∧
      interp Family.msvc st o₅ = interp Family.msvc st o₂ ∧
      interp Family.msvc st o₆ = st ∧
      Warning.code n ∈ (interp Family.msvc st o₅).disabled := by
  have hpop : Passes (fullTable Family.msvc predefined) [Token.ident "POP_WARNINGS"]
      msvcPopBody := by
    simpa using passes_pop Family.msvc predefined
  have h₂ := passes_scopeOpen_msvc predefined n
  have h₅ := (h₂.append (passes_scopeOpen_msvc predefined m)).append hpop
  have h₆ := h₅.append hpop
  have e₂ : interp Family.msvc st (msvcPushBody ++ vsDisableDirective [Token.number n])
      = (st.apply DiagOp.push).apply (DiagOp.disable [Warning.code n]) := by
    have a := interp_msvc_disable (st.apply DiagOp.push) n []
    simp only [List.append_nil] at a
    rw [interp, interp_msvc_push, a]
    rfl
  have e₅ : interp Family.msvc st
      (msvcPushBody ++ vsDisableDirective [Token.number n]
        ++ (msvcPushBody ++ vsDisableDirective [Token.number m]) ++ msvcPopBody)
      = (st.apply DiagOp.push).apply (DiagOp.disable [Warning.code n]) := by
    have a := interp_msvc_pop ((((st.apply DiagOp.push).apply
      (DiagOp.disable [Warning.code n])).apply DiagOp.push).apply
      (DiagOp.disable [Warning.code m])) []
    simp only [List.append_nil] at a
    simp only [interp, List.append_assoc]
    rw [interp_msvc_push, interp_msvc_disable, interp_msvc_push, interp_msvc_disable, a]
    rfl
  have e₆ : interp Family.msvc st
      (msvcPushBody ++ vsDisableDirective [Token.number n]
        ++ (msvcPushBody ++ vsDisableDirective [Token.number m]) ++ msvcPopBody
        ++ msvcPopBody) = st := by
    have a := interp_msvc_pop ((st.apply DiagOp.push).apply
      (DiagOp.disable [Warning.code n])) []
    simp only [List.append_nil] at a
    simp only [interp, List.append_assoc]
    rw [interp_msvc_push, interp_msvc_disable, interp_msvc_push, interp_msvc_disable,
      interp_msvc_pop]
    exact a
  refine ⟨_, _, _, h₂, h₅, h₆, ?_, e₆, ?_⟩
  · rw [e₅, e₂]
  · rw [e₅]
    simp [DiagState.apply]

/-- Nested scopes on the Clang-like and GCC-like toolchains. -/
theorem nested_other (fam : Family) (predefined : List Predefined) (hf : fam ≠ Family.msvc)
    (g k : String) (hg : g ∉ headerMacroNames) (hk : k ∉ headerMacroNames) (st : DiagState) :
    ∃ o₂ o₅ o₆,
      Passes (fullTable fam predefined) (scopeOpen fam (Warning.group g)) o₂ ∧
      Passes (fullTable fam predefined)
        (nestedScopes fam (Warning.group g) (Warning.group k)) o₅ ∧
      Passes (fullTable fam predefined)
        (nestedScopes fam (Warning.group g) (Warning.group k)
          ++ [Token.ident "POP_WARNINGS"]) o₆ ∧
      interp fam st o₅ = interp fam st o₂ ∧
      interp fam st o₆ = st ∧
      interp fam st o₅ = st.apply DiagOp.push := by
  have hpop : Passes (fullTable fam predefined) [Token.ident "POP_WARNINGS"] gccPopBody := by
    simpa [hf] using passes_pop fam predefined
  have h₂ := passes_scopeOpen_other fam predefined hf g hg
  have h₅ := (h₂.append (passes_scopeOpen_other fam predefined hf k hk)).append hpop
  have h₆ := h₅.append hpop
  have e₂ : interp fam st (gccPushBody ++ invoke "DISABLE_GCC_AND_CLANG_WARNING"
        [replaceToken predefined (Token.ident g)])
      = st.apply DiagOp.push := by
    have a := interp_unreplaced fam hf (st.apply DiagOp.push)
      (replaceToken predefined (Token.ident g)) []
    simp only [List.append_nil] at a
    rw [interp, interp_gcc_push fam hf, a]
    rfl
  have e₅ : interp fam st
      (gccPushBody ++ invoke "DISABLE_GCC_AND_CLANG_WARNING"
          [replaceToken predefined (Token.ident g)]
        ++ (gccPushBody ++ invoke "DISABLE_GCC_AND_CLANG_WARNING"
          [replaceToken predefined (Token.ident k)])
        ++ gccPopBody) = st.apply DiagOp.push := by
    have a := interp_gcc_pop fam hf ((st.apply DiagOp.push).apply DiagOp.push) []
    simp only [List.append_nil] at a
    simp only [interp, List.append_assoc]
    rw [interp_gcc_push fam hf, interp_unreplaced fam hf, interp_gcc_push fam hf,
      interp_unreplaced fam hf, a]
    rfl
  have e₆ : interp fam st
      (gccPushBody ++ invoke "DISABLE_GCC_AND_CLANG_WARNING"
          [replaceToken predefined (Token.ident g)]
        ++ (gccPushBody ++ invoke "DISABLE_GCC_AND_CLANG_WARNING"
          [replaceToken predefined (Token.ident k)])
        ++ gccPopBody ++ gccPopBody) = st := by
    have a := interp_gcc_pop fam hf (st.apply DiagOp.push) []
    simp only [List.append_nil] at a
    simp only [interp, List.append_assoc]
    rw [interp_gcc_push fam hf, interp_unreplaced fam hf, interp_gcc_push fam hf,
      interp_unreplaced fam hf, interp_gcc_pop fam hf]
    exact a
  exact ⟨_, _, _, h₂, h₅, h₆, by rw [e₅, e₂], e₆, e₅⟩

/-! ## The six macros on each toolchain identity -/

theorem passes_verbatim_alias (fam : Family) (predefined : List Predefined)
    (hf : fam ≠ Family.msvc) (w : List Token) (hw : Plain w)
    (hn : NoPredefined predefined w) :
    Passes (fullTable fam predefined) (invoke (nativeDisable fam) w)
      (invoke "DISABLE_GCC_AND_CLANG_WARNING" w) := by
  have h := passes_native_alias fam predefined hf w hw
  rwa [replacePredefined_eq_self predefined w hn] at h

theorem passes_verbatim_unreplaced (fam : Family) (predefined : List Predefined)
    (hf : fam ≠ Family.msvc) (w : List Token) (hw : Plain w)
    (hn : NoPredefined predefined w) :
    Passes (fullTable fam predefined) (invoke "DISABLE_GCC_AND_CLANG_WARNING" w)
      (invoke "DISABLE_GCC_AND_CLANG_WARNING" w) := by
  have h := passes_unreplaced fam predefined hf w hw
  rwa [replacePredefined_eq_self predefined w hn] at h

theorem passes_verbatim_vs (predefined : List Predefined) (w : List Token) (ha : IsArg w)
    (hw : Plain w) (hn : NoPredefined predefined w) :
    Passes (fullTable Family.msvc predefined) (invoke "DISABLE_VS_WARNINGS" w)
      (vsDisableDirective w) :=
  passes_vs predefined w w ha (passes_plain _ _ (plain_macroFree _ _ w hw hn))
    (plain_macroFree _ _ w hw hn)

theorem replaceToken_ident_ne_strLit (predefined : List Predefined) (g s : String) :
    replaceToken predefined (Token.ident g) ≠ Token.strLit s := by
  simp only [replaceToken]
  split <;> simp

theorem replaceToken_ident_ne_ident (predefined : List Predefined) (g n : String)
    (h : g ≠ n) : replaceToken predefined (Token.ident g) ≠ Token.ident n := by
  simp only [replaceToken]
  split <;> simp [h]

/-! ## The claims -/

/-- C1: on each toolchain identity, every disable macro that does not apply
to that identity expands to the empty token sequence, for every argument
`w`: on MSVC-like the GCC, Clang and GCC-and-Clang macros, on Clang-like
the VS and GCC macros, on GCC-like the VS and Clang macros. -/
theorem inapplicable_disable_expands_to_nothing (predefined : List Predefined)
    (w : List Token) (hw : IsArg w) :
    ("_MSC_VER" ∈ predefinedNames predefined →
      Expansion predefined (invoke "DISABLE_GCC_WARNING" w) [] ∧
      Expansion predefined (invoke "DISABLE_CLANG_WARNING" w) [] ∧
      Expansion predefined (invoke "DISABLE_GCC_AND_CLANG_WARNING" w) []) ∧
    ("_MSC_VER" ∉ predefinedNames predefined → "__clang__" ∈ predefinedNames predefined →
      Expansion predefined (invoke "DISABLE_VS_WARNINGS" w) [] ∧
      Expansion predefined (invoke "DISABLE_GCC_WARNING" w) []) ∧
    ("_MSC_VER" ∉ predefinedNames predefined → "__clang__" ∉ predefinedNames predefined →
      Expansion predefined (invoke "DISABLE_VS_WARNINGS" w) [] ∧
      Expansion predefined (invoke "DISABLE_CLANG_WARNING" w) []) := by
  have key : ∀ fam name, family predefined = fam →
      (familyTable fam).lookup name = some (Macro.function ["w"] []) →
      Expansion predefined (invoke name w) [] := fun fam name hf hl =>
    expansion_of_passes hf (passes_empty_call _ name "w" w (fullTable_header fam predefined hl) hw)
  refine ⟨fun hm => ?_, fun hm hc => ?_, fun hm hc => ?_⟩
  · exact ⟨key _ _ (family_msvc hm) rfl, key _ _ (family_msvc hm) rfl,
      key _ _ (family_msvc hm) rfl⟩
  · exact ⟨key _ _ (family_clang hm hc) rfl, key _ _ (family_clang hm hc) rfl⟩
  · exact ⟨key _ _ (family_gcc hm hc) rfl, key _ _ (family_gcc hm hc) rfl⟩

/-- C5 as stated fails on the MSVC-like toolchain: an argument that names a
macro is not forwarded verbatim.  `DISABLE_VS_WARNINGS(PUSH_WARNINGS)` does
not expand to `__pragma(warning(disable: PUSH_WARNINGS))`, and
`DISABLE_VS_WARNINGS(_MSC_VER)` does not expand to
`__pragma(warning(disable: _MSC_VER))`. -/
theorem vs_disable_counterexample :
    (¬ Expansion msvcOnly (invoke "DISABLE_VS_WARNINGS" [Token.ident "PUSH_WARNINGS"])
        [Token.ident "__pragma", Token.punct "(", Token.ident "warning", Token.punct "(",
          Token.ident "disable", Token.punct ":", Token.ident "PUSH_WARNINGS",
          Token.punct ")", Token.punct ")"]) ∧
    (¬ Expansion msvcOnly (invoke "DISABLE_VS_WARNINGS" [Token.ident "_MSC_VER"])
        [Token.ident "__pragma", Token.punct "(", Token.ident "warning", Token.punct "(",
          Token.ident "disable", Token.punct ":", Token.ident "_MSC_VER",
          Token.punct ")", Token.punct ")"]) := by
  have hfam : family msvcOnly = Family.msvc := by decide
  constructor
  · intro h
    have hpush : Passes (fullTable Family.msvc msvcOnly) [Token.ident "PUSH_WARNINGS"]
        msvcPushBody := by
      simpa using passes_push Family.msvc msvcOnly
    have hreal := expansion_of_passes hfam
      (passes_vs msvcOnly [Token.ident "PUSH_WARNINGS"] msvcPushBody (by decide) hpush
        (fixed_macroFree _ _ _ (by decide) (by decide)))
    have := expansion_unique h hreal
    revert this
    decide
  · intro h
    have hreal := expansion_of_passes hfam
      (passes_vs msvcOnly [Token.ident "_MSC_VER"] _ (by decide)
        (passes_replace Family.msvc msvcOnly _ (by decide))
        (macroFree_replace Family.msvc msvcOnly _ (by decide)))
    have := expansion_unique h hreal
    revert this
    decide

/-- C5 (amended): on the MSVC-like toolchain `DISABLE_VS_WARNINGS(w)` expands
to exactly `__pragma(warning(disable: w))` with the argument copied as
written, for every argument `w` in which no identifier names a macro (one
of the header or a predefined one); without `_MSC_VER` it expands to nothing
for every argument. -/
theorem vs_disable_expansion (predefined : List Predefined) (w : List Token)
    (ha : IsArg w) :
    ("_MSC_VER" ∈ predefinedNames predefined → Plain w → NoPredefined predefined w →
      Expansion predefined (invoke "DISABLE_VS_WARNINGS" w)
        ([Token.ident "__pragma", Token.punct "(", Token.ident "warning", Token.punct "(",
          Token.ident "disable", Token.punct ":"] ++ w ++ [Token.punct ")", Token.punct ")"])) ∧
    ("_MSC_VER" ∉ predefinedNames predefined →
      Expansion predefined (invoke "DISABLE_VS_WARNINGS" w) []) := by
  refine ⟨fun hm hp hn => ?_, fun hm => ?_⟩
  · exact expansion_of_passes (family_msvc hm) (passes_verbatim_vs predefined w ha hp hn)
  · by_cases hc : "__clang__" ∈ predefinedNames predefined
    · exact expansion_of_passes (family_clang hm hc)
        (passes_empty_call _ _ "w" w (fullTable_header Family.clang predefined rfl) ha)
    · exact expansion_of_passes (family_gcc hm hc)
        (passes_empty_call _ _ "w" w (fullTable_header Family.gcc predefined rfl) ha)

/-- C6: `PUSH_WARNINGS` and `POP_WARNINGS` expand to the native save and
restore directives on every toolchain identity: `__pragma(warning(push))`
and `__pragma(warning(pop))` under `_MSC_VER`, `_Pragma("GCC diagnostic
push")` and `_Pragma("GCC diagnostic pop")` otherwise, the same for the
Clang-like and the GCC-like toolchain. -/
theorem push_pop_expansion (predefined : List Predefined) :
    ("_MSC_VER" ∈ predefinedNames predefined →
      Expansion predefined [Token.ident "PUSH_WARNINGS"]
        [Token.ident "__pragma", Token.punct "(", Token.ident "warning", Token.punct "(",
          Token.ident "push", Token.punct ")", Token.punct ")"] ∧
      Expansion predefined [Token.ident "POP_WARNINGS"]
        [Token.ident "__pragma", Token.punct "(", Token.ident "warning", Token.punct "(",
          Token.ident "pop", Token.punct ")", Token.punct ")"]) ∧
    ("_MSC_VER" ∉ predefinedNames predefined →
      Expansion predefined [Token.ident "PUSH_WARNINGS"]
        [Token.ident "_Pragma", Token.punct "(", Token.strLit "GCC diagnostic push",
          Token.punct ")"] ∧
      Expansion predefined [Token.ident "POP_WARNINGS"]
        [Token.ident "_Pragma", Token.punct "(", Token.strLit "GCC diagnostic pop",
          Token.punct ")"]) := by
  have hpush := passes_push (family predefined) predefined
  have hpop := passes_pop (family predefined) predefined
  refine ⟨fun hm => ?_, fun hm => ?_⟩
  · simp only [family_msvc hm, ↓reduceIte] at hpush hpop
    exact ⟨expansion_of_passes (family_msvc hm) hpush,
      expansion_of_passes (family_msvc hm) hpop⟩
  · simp only [family_ne_msvc hm, ↓reduceIte] at hpush hpop
    exact ⟨expansion_of_passes rfl hpush, expansion_of_passes rfl hpop⟩

/-- C7: on every toolchain identity `PUSH_WARNINGS` immediately followed by
`POP_WARNINGS` expands to directives that leave the diagnostic state, the
set of disabled warnings and the stack of saved sets, exactly as it was. -/
theorem push_pop_restores_state (predefined : List Predefined) (st : DiagState) :
    ∃ out, Expansion predefined [Token.ident "PUSH_WARNINGS", Token.ident "POP_WARNINGS"] out ∧
      out ≠ [] ∧ interp (family predefined) st out = st := by
  have hp := (passes_push (family predefined) predefined).append
    (passes_pop (family predefined) predefined)
  refine ⟨_, expansion_of_passes rfl hp, ?_, ?_⟩
  · split <;> simp [msvcPushBody, gccPushBody]
  · by_cases hf : family predefined = Family.msvc
    · have e := interp_msvc_push st (msvcPopBody ++ [])
      have e2 := interp_msvc_pop (st.apply DiagOp.push) []
      simp only [List.append_nil] at e e2
      simp only [hf, ↓reduceIte, interp]
      rw [e, e2, apply_push_pop]
      rfl
    · have e := interp_gcc_push _ hf st (gccPopBody ++ [])
      have e2 := interp_gcc_pop _ hf (st.apply DiagOp.push) []
      simp only [List.append_nil] at e e2
      simp only [hf, ↓reduceIte, interp]
      rw [e, e2, apply_push_pop]
      rfl

/-- C8 as stated fails on the Clang-like toolchain: after `PUSH_WARNINGS
DISABLE_CLANG_WARNING(unused) PUSH_WARNINGS DISABLE_CLANG_WARNING(shadow)
POP_WARNINGS` from the empty state the group `unused` is not in the set of
disabled warnings. -/
theorem nested_scopes_clang_counterexample :
    ¬ ∃ out,
      Expansion clangOnly
        (nestedScopes Family.clang (Warning.group "unused") (Warning.group "shadow")) out ∧
      Warning.group "unused" ∈ (interp Family.clang ⟨[], []⟩ out).disabled := by
  rintro ⟨out, h, hmem⟩
  obtain ⟨o₂, o₅, o₆, -, h₅, -, -, -, e₅⟩ :=
    nested_other Family.clang clangOnly (by decide) "unused" "shadow" (by decide) (by decide)
      ⟨[], []⟩
  have hout : out = o₅ := expansion_unique h (expansion_of_passes (by decide) h₅)
  rw [hout, e₅] at hmem
  simp [DiagState.apply] at hmem

/-- C8 (amended): with warnings the toolchain identity can name, the
directives of `PUSH_WARNINGS disable(x) PUSH_WARNINGS disable(y)
POP_WARNINGS` leave the diagnostic state as it was just before the inner
`PUSH_WARNINGS`, the outer `POP_WARNINGS` that follows restores the state
before the outer `PUSH_WARNINGS`, and on the MSVC-like toolchain `x` is
still disabled after the inner `POP_WARNINGS`. -/
theorem nested_scopes_restore (predefined : List Predefined) (x y : Warning) (st : DiagState)
    (hx : x.validFor (family predefined) = true) (hy : y.validFor (family predefined) = true) :
    ∃ o₂ o₅ o₆,
      Expansion predefined (scopeOpen (family predefined) x) o₂ ∧
      Expansion predefined (nestedScopes (family predefined) x y) o₅ ∧
      Expansion predefined
        (nestedScopes (family predefined) x y ++ [Token.ident "POP_WARNINGS"]) o₆ ∧
      interp (family predefined) st o₅ = interp (family predefined) st o₂ ∧
      interp (family predefined) st o₆ = st ∧
      ("_MSC_VER" ∈ predefinedNames predefined →
        x ∈ (interp (family predefined) st o₅).disabled) := by
  by_cases hm : "_MSC_VER" ∈ predefinedNames predefined
  · have hf := family_msvc hm
    rw [hf] at hx hy ⊢
    cases x with
    | group g => simp [Warning.validFor] at hx
    | code n =>
      cases y with
      | group k => simp [Warning.validFor] at hy
      | code m =>
        obtain ⟨o₂, o₅, o₆, h₂, h₅, h₆, e₁, e₂, e₃⟩ := nested_msvc predefined n m st
        exact ⟨o₂, o₅, o₆, expansion_of_passes hf h₂, expansion_of_passes hf h₅,
          expansion_of_passes hf h₆, e₁, e₂, fun _ => e₃⟩
  · have hf := family_ne_msvc hm
    cases x with
    | code n => cases hfam : family predefined <;> simp [hfam, Warning.validFor] at hx hf
    | group g =>
      cases y with
      | code m => cases hfam : family predefined <;> simp [hfam, Warning.validFor] at hy hf
      | group k =>
        have hg : g ∉ headerMacroNames := by
          cases hfam : family predefined <;> simp [hfam, Warning.validFor] at hx hf <;>
            simpa using hx
        have hk : k ∉ headerMacroNames := by
          cases hfam : family predefined <;> simp [hfam, Warning.validFor] at hy hf <;>
            simpa using hy
        obtain ⟨o₂, o₅, o₆, h₂, h₅, h₆, e₁, e₂, -⟩ :=
          nested_other (family predefined) predefined hf g k hg hk st
        exact ⟨o₂, o₅, o₆, expansion_of_passes rfl h₂, expansion_of_passes rfl h₅,
          expansion_of_passes rfl h₆, e₁, e₂, fun h => absurd h hm⟩

/-- C2 as stated fails on the GCC-like toolchain:
`DISABLE_GCC_AND_CLANG_WARNING(unused)` does not expand to
`_Pragma("GCC diagnostic ignored \"-Wunused\"")`, and its expansion holds no
`_Pragma` token at all. -/
theorem gcc_and_clang_disable_counterexample :
    (¬ Expansion [] (invoke "DISABLE_GCC_AND_CLANG_WARNING" [Token.ident "unused"])
        [Token.ident "_Pragma", Token.punct "(",
          Token.strLit "GCC diagnostic ignored \"-Wunused\"", Token.punct ")"]) ∧
    (¬ ∃ out, Expansion [] (invoke "DISABLE_GCC_AND_CLANG_WARNING" [Token.ident "unused"]) out ∧
        Token.ident "_Pragma" ∈ out) := by
  have hreal : Expansion [] (invoke "DISABLE_GCC_AND_CLANG_WARNING" [Token.ident "unused"])
      (invoke "DISABLE_GCC_AND_CLANG_WARNING" [Token.ident "unused"]) :=
    expansion_of_passes (show family [] = Family.gcc by decide)
      (passes_verbatim_unreplaced Family.gcc [] (by decide) _ (by decide) (by decide))
  constructor
  · intro h
    have := expansion_unique h hreal
    simp [invoke] at this
  · rintro ⟨out, h, hmem⟩
    rw [expansion_unique h hreal] at hmem
    revert hmem
    decide

/-- C2 (amended): under `_MSC_VER` the invocation
`DISABLE_GCC_AND_CLANG_WARNING(w)` expands to nothing; without `_MSC_VER`
the header defines no macro of that name, so the invocation is not replaced:
its name and parentheses stay, around the argument with the predefined
macros in it replaced, and so its tokens stay as written when the argument
mentions no predefined macro. -/
theorem gcc_and_clang_disable_expansion (predefined : List Predefined) (w : List Token)
    (ha : IsArg w) (hp : Plain w) :
    ("_MSC_VER" ∈ predefinedNames predefined →
      Expansion predefined (invoke "DISABLE_GCC_AND_CLANG_WARNING" w) []) ∧
    ("_MSC_VER" ∉ predefinedNames predefined →
      (∃ table, headerMacros predefined = Except.ok table ∧
        table.lookup "DISABLE_GCC_AND_CLANG_WARNING" = none) ∧
      Expansion predefined (invoke "DISABLE_GCC_AND_CLANG_WARNING" w)
        (Token.ident "DISABLE_GCC_AND_CLANG_WARNING" :: Token.punct "("
          :: (replacePredefined predefined w ++ [Token.punct ")"])) ∧
      (NoPredefined predefined w →
        Expansion predefined (invoke "DISABLE_GCC_AND_CLANG_WARNING" w)
          (Token.ident "DISABLE_GCC_AND_CLANG_WARNING" :: Token.punct "("
            :: (w ++ [Token.punct ")"])))) := by
  refine ⟨fun hm => ?_, fun hm => ⟨?_, ?_, fun hn => ?_⟩⟩
  · exact expansion_of_passes (family_msvc hm)
      (passes_empty_call _ _ "w" w (fullTable_header Family.msvc predefined rfl) ha)
  · exact ⟨_, headerMacros_eq predefined, lookup_both_none _ predefined (family_ne_msvc hm)⟩
  · exact expansion_of_passes rfl (passes_unreplaced _ predefined (family_ne_msvc hm) w hp)
  · exact expansion_of_passes rfl
      (passes_verbatim_unreplaced _ predefined (family_ne_msvc hm) w hp hn)

/-- C3 as stated fails: on the Clang-like toolchain
`DISABLE_CLANG_WARNING(unused)`, and on the GCC-like toolchain
`DISABLE_GCC_WARNING(unused)`, have an expansion without any `_Pragma`
token, so it is no `_Pragma` directive. -/
theorem native_disable_counterexample :
    (¬ ∃ out, Expansion clangOnly (invoke "DISABLE_CLANG_WARNING" [Token.ident "unused"]) out ∧
        Token.ident "_Pragma" ∈ out) ∧
    (¬ ∃ out, Expansion gccOnly (invoke "DISABLE_GCC_WARNING" [Token.ident "unused"]) out ∧
        Token.ident "_Pragma" ∈ out) := by
  constructor
  · rintro ⟨out, h, hmem⟩
    have hfam : family clangOnly = Family.clang := by decide
    have hreal := expansion_of_passes hfam
      (passes_verbatim_alias Family.clang clangOnly (by decide) [Token.ident "unused"]
        (by decide) (by decide))
    rw [expansion_unique h hreal] at hmem
    revert hmem
    decide
  · rintro ⟨out, h, hmem⟩
    have hfam : family gccOnly = Family.gcc := by decide
    have hreal := expansion_of_passes hfam
      (passes_verbatim_alias Family.gcc gccOnly (by decide) [Token.ident "unused"]
        (by decide) (by decide))
    rw [expansion_unique h hreal] at hmem
    revert hmem
    decide

/-- C3 (amended): without `_MSC_VER`, `DISABLE_CLANG_WARNING` on the
Clang-like toolchain and `DISABLE_GCC_WARNING` on the GCC-like toolchain are
object-like aliases of `DISABLE_GCC_AND_CLANG_WARNING`, for which the header
has no definition there; invoked with a group name they have an expansion
that holds no string literal, hence no `_Pragma("...")` directive. -/
theorem native_disable_yields_no_directive (predefined : List Predefined) (g : String)
    (hm : "_MSC_VER" ∉ predefinedNames predefined) (hg : g ∉ headerMacroNames) :
    (∃ table, headerMacros predefined = Except.ok table ∧
      table.lookup (if "__clang__" ∈ predefinedNames predefined then "DISABLE_CLANG_WARNING"
          else "DISABLE_GCC_WARNING")
        = some (Macro.object [Token.ident "DISABLE_GCC_AND_CLANG_WARNING"]) ∧
      table.lookup "DISABLE_GCC_AND_CLANG_WARNING" = none) ∧
    ∃ out,
      Expansion predefined
        (invoke (if "__clang__" ∈ predefinedNames predefined then "DISABLE_CLANG_WARNING"
          else "DISABLE_GCC_WARNING") [Token.ident g]) out ∧
      (∀ s, Token.strLit s ∉ out) ∧
      (g ≠ "_Pragma" → Token.ident "_Pragma" ∉ out) := by
  have hf := family_ne_msvc hm
  have hname : (if "__clang__" ∈ predefinedNames predefined then "DISABLE_CLANG_WARNING"
      else "DISABLE_GCC_WARNING") = nativeDisable (family predefined) := by
    by_cases hc : "__clang__" ∈ predefinedNames predefined
    · simp [hc, family_clang hm hc, nativeDisable]
    · simp [hc, family_gcc hm hc, nativeDisable]
  rw [hname]
  refine ⟨⟨_, headerMacros_eq predefined, lookup_native_alias _ predefined hf,
    lookup_both_none _ predefined hf⟩, ?_⟩
  refine ⟨_, expansion_of_passes rfl
    (passes_native_alias _ predefined hf _ (plain_ident hg)), ?_, ?_⟩
  · intro s
    have := replaceToken_ident_ne_strLit predefined g s
    simp [invoke, lparen, rparen, replacePredefined, this.symm]
  · intro hne
    have := replaceToken_ident_ne_ident predefined g "_Pragma" hne
    simp [invoke, lparen, rparen, replacePredefined, this.symm]

/-- C9 as stated fails on the Clang-like toolchain: an argument that names a
macro is replaced inside the leftover tokens.
`DISABLE_CLANG_WARNING(PUSH_WARNINGS)` does not expand to
`DISABLE_GCC_AND_CLANG_WARNING ( PUSH_WARNINGS )`. -/
theorem native_disable_left_unreplaced_counterexample :
    ¬ Expansion clangOnly (invoke "DISABLE_CLANG_WARNING" [Token.ident "PUSH_WARNINGS"])
        [Token.ident "DISABLE_GCC_AND_CLANG_WARNING", Token.punct "(",
          Token.ident "PUSH_WARNINGS", Token.punct ")"] := by
  intro h
  have hfam : family clangOnly = Family.clang := by decide
  have hpush : Passes (fullTable Family.clang clangOnly) [Token.ident "PUSH_WARNINGS"]
      gccPushBody := by
    simpa using passes_push Family.clang clangOnly
  have hreal := expansion_of_passes hfam
    ((passes_object _ _ _ (lookup_native_alias Family.clang clangOnly (by decide))
        (macroFree_both Family.clang clangOnly (by decide))).append
      ((passes_paren Family.clang clangOnly "(").append
        (hpush.append (passes_paren Family.clang clangOnly ")"))))
  have := expansion_unique h hreal
  revert this
  decide

/-- C9 (amended): without `_MSC_VER` the header leaves
`DISABLE_GCC_AND_CLANG_WARNING` undefined, so `DISABLE_CLANG_WARNING(w)` on
the Clang-like toolchain and `DISABLE_GCC_WARNING(w)` on the GCC-like
toolchain expand, for every argument, to tokens that start with the
unreplaced name `DISABLE_GCC_AND_CLANG_WARNING`, which are neither empty
nor a `_Pragma` directive; for every argument `w` in which no identifier
names a macro the expansion is exactly `DISABLE_GCC_AND_CLANG_WARNING ( w )`. -/
theorem native_disable_left_unreplaced (predefined : List Predefined) (w : List Token)
    (hm : "_MSC_VER" ∉ predefinedNames predefined) :
    (∃ table, headerMacros predefined = Except.ok table ∧
      table.lookup "DISABLE_GCC_AND_CLANG_WARNING" = none) ∧
    (∀ out,
      Expansion predefined
        (invoke (if "__clang__" ∈ predefinedNames predefined then "DISABLE_CLANG_WARNING"
          else "DISABLE_GCC_WARNING") w) out →
      out ≠ [] ∧ out.head? = some (Token.ident "DISABLE_GCC_AND_CLANG_WARNING") ∧
      ∀ s, out ≠ [Token.ident "_Pragma", Token.punct "(", Token.strLit s, Token.punct ")"]) ∧
    (Plain w → NoPredefined predefined w →
      Expansion predefined
        (invoke (if "__clang__" ∈ predefinedNames predefined then "DISABLE_CLANG_WARNING"
          else "DISABLE_GCC_WARNING") w)
        (Token.ident "DISABLE_GCC_AND_CLANG_WARNING" :: Token.punct "("
          :: (w ++ [Token.punct ")"]))) := by
  have hf := family_ne_msvc hm
  have hname : (if "__clang__" ∈ predefinedNames predefined then "DISABLE_CLANG_WARNING"
      else "DISABLE_GCC_WARNING") = nativeDisable (family predefined) := by
    by_cases hc : "__clang__" ∈ predefinedNames predefined
    · simp [hc, family_clang hm hc, nativeDisable]
    · simp [hc, family_gcc hm hc, nativeDisable]
  rw [hname]
  refine ⟨⟨_, headerMacros_eq predefined, lookup_both_none _ predefined hf⟩, ?_, ?_⟩
  · intro out h
    obtain ⟨tail, rfl⟩ := alias_head _ _ _ _ out (lookup_native_alias _ predefined hf)
      (lookup_both_none _ predefined hf) ((expansion_iff _ _ _).1 h)
    refine ⟨by simp, by simp, ?_⟩
    intro s
    simp
  · intro hp hn
    exact expansion_of_passes rfl (passes_verbatim_alias _ predefined hf w hp hn)

/-- C4: without `_MSC_VER` the macro of the family, `DISABLE_CLANG_WARNING`
on the Clang-like and `DISABLE_GCC_WARNING` on the GCC-like toolchain, is an
object-like alias of `DISABLE_GCC_AND_CLANG_WARNING`, and for every argument
`w` the two invocations have the same full macro expansion. -/
theorem alias_expands_like_target (predefined : List Predefined) (w : List Token)
    (hm : "_MSC_VER" ∉ predefinedNames predefined) :
    ("__clang__" ∈ predefinedNames predefined →
      (∃ table, headerMacros predefined = Except.ok table ∧
        table.lookup "DISABLE_CLANG_WARNING"
          = some (Macro.object [Token.ident "DISABLE_GCC_AND_CLANG_WARNING"])) ∧
      ∀ out, Expansion predefined (invoke "DISABLE_GCC_AND_CLANG_WARNING" w) out
        ↔ Expansion predefined (invoke "DISABLE_CLANG_WARNING" w) out) ∧
    ("__clang__" ∉ predefinedNames predefined →
      (∃ table, headerMacros predefined = Except.ok table ∧
        table.lookup "DISABLE_GCC_WARNING"
          = some (Macro.object [Token.ident "DISABLE_GCC_AND_CLANG_WARNING"])) ∧
      ∀ out, Expansion predefined (invoke "DISABLE_GCC_AND_CLANG_WARNING" w) out
        ↔ Expansion predefined (invoke "DISABLE_GCC_WARNING" w) out) ∧
    (Plain w → ∃ out, Expansion predefined (invoke "DISABLE_GCC_AND_CLANG_WARNING" w) out) := by
  have hne := family_ne_msvc hm
  refine ⟨fun hc => ?_, fun hc => ?_, fun hw => ?_⟩
  · have hf := family_clang hm hc
    have hl := lookup_native_alias (family predefined) predefined hne
    have hn := lookup_both_none (family predefined) predefined hne
    rw [hf] at hl hn
    refine ⟨⟨_, headerMacros_eq predefined, by rw [hf]; exact hl⟩, fun out => ?_⟩
    rw [expansion_iff, expansion_iff, hf]
    exact (alias_expandsTo_iff _ "DISABLE_CLANG_WARNING"
      "DISABLE_GCC_AND_CLANG_WARNING" _ out hl hn).symm
  · have hf := family_gcc hm hc
    have hl := lookup_native_alias (family predefined) predefined hne
    have hn := lookup_both_none (family predefined) predefined hne
    rw [hf] at hl hn
    refine ⟨⟨_, headerMacros_eq predefined, by rw [hf]; exact hl⟩, fun out => ?_⟩
    rw [expansion_iff, expansion_iff, hf]
    exact (alias_expandsTo_iff _ "DISABLE_GCC_WARNING"
      "DISABLE_GCC_AND_CLANG_WARNING" _ out hl hn).symm
  · exact ⟨_, expansion_of_passes rfl (passes_unreplaced _ predefined hne w hw)⟩

/-- C1 at the argument `4146 4244`, once for each toolchain identity. -/
theorem inapplicable_disable_witness :
    IsArg [Token.number 4146, Token.number 4244] ∧
    Expansion msvcOnly
      (invoke "DISABLE_GCC_AND_CLANG_WARNING" [Token.number 4146, Token.number 4244]) [] ∧
    Expansion clangOnly
      (invoke "DISABLE_GCC_WARNING" [Token.number 4146, Token.number 4244]) [] ∧
    Expansion gccOnly
      (invoke "DISABLE_CLANG_WARNING" [Token.number 4146, Token.number 4244]) [] :=
  ⟨by decide,
    ((inapplicable_disable_expands_to_nothing msvcOnly _ (by decide)).1 (by decide)).2.2,
    ((inapplicable_disable_expands_to_nothing clangOnly _ (by decide)).2.1
      (by decide) (by decide)).2,
    ((inapplicable_disable_expands_to_nothing gccOnly _ (by decide)).2.2
      (by decide) (by decide)).2⟩

/-- C5 (amended) at the argument `4146 4244`, with and without `_MSC_VER`. -/
theorem vs_disable_witness :
    IsArg [Token.number 4146, Token.number 4244] ∧
    Plain [Token.number 4146, Token.number 4244] ∧
    NoPredefined msvcOnly [Token.number 4146, Token.number 4244] ∧
    Expansion msvcOnly (invoke "DISABLE_VS_WARNINGS" [Token.number 4146, Token.number 4244])
      [Token.ident "__pragma", Token.punct "(", Token.ident "warning", Token.punct "(",
        Token.ident "disable", Token.punct ":", Token.number 4146, Token.number 4244,
        Token.punct ")", Token.punct ")"] ∧
    Expansion clangOnly
      (invoke "DISABLE_VS_WARNINGS" [Token.number 4146, Token.number 4244]) [] :=
  ⟨by decide, by decide, by decide,
    (vs_disable_expansion msvcOnly _ (by decide)).1 (by decide) (by decide) (by decide),
    (vs_disable_expansion clangOnly _ (by decide)).2 (by decide)⟩

/-- C6 for the MSVC-like and for the Clang-like toolchain. -/
theorem push_pop_expansion_witness :
    Expansion msvcOnly [Token.ident "PUSH_WARNINGS"]
      [Token.ident "__pragma", Token.punct "(", Token.ident "warning", Token.punct "(",
        Token.ident "push", Token.punct ")", Token.punct ")"] ∧
    Expansion clangOnly [Token.ident "POP_WARNINGS"]
      [Token.ident "_Pragma", Token.punct "(", Token.strLit "GCC diagnostic pop",
        Token.punct ")"] :=
  ⟨((push_pop_expansion msvcOnly).1 (by decide)).1,
    ((push_pop_expansion clangOnly).2 (by decide)).2⟩

/-- C2 (amended) at the group `unused`, with and without `_MSC_VER`. -/
theorem gcc_and_clang_disable_witness :
    IsArg [Token.ident "unused"] ∧ Plain [Token.ident "unused"] ∧
    Expansion msvcOnly (invoke "DISABLE_GCC_AND_CLANG_WARNING" [Token.ident "unused"]) [] ∧
    Expansion gccOnly (invoke "DISABLE_GCC_AND_CLANG_WARNING" [Token.ident "unused"])
      [Token.ident "DISABLE_GCC_AND_CLANG_WARNING", Token.punct "(", Token.ident "unused",
        Token.punct ")"] :=
  ⟨by decide, by decide,
    (gcc_and_clang_disable_expansion msvcOnly _ (by decide) (by decide)).1 (by decide),
    ((gcc_and_clang_disable_expansion gccOnly _ (by decide) (by decide)).2
      (by decide)).2.2 (by decide)⟩

/-- C3 (amended) at the group `unused` on the Clang-like toolchain. -/
theorem native_disable_yields_no_directive_witness :
    "_MSC_VER" ∉ predefinedNames clangOnly ∧ "unused" ∉ headerMacroNames ∧
    ∃ out, Expansion clangOnly (invoke "DISABLE_CLANG_WARNING" [Token.ident "unused"]) out ∧
      (∀ s, Token.strLit s ∉ out) ∧ ("unused" ≠ "_Pragma" → Token.ident "_Pragma" ∉ out) :=
  ⟨by decide, by decide,
    (native_disable_yields_no_directive clangOnly "unused" (by decide) (by decide)).2⟩

/-- C9 (amended) at the group `unused` on the Clang-like toolchain. -/
theorem native_disable_left_unreplaced_witness :
    "_MSC_VER" ∉ predefinedNames clangOnly ∧ Plain [Token.ident "unused"] ∧
    NoPredefined clangOnly [Token.ident "unused"] ∧
    Expansion clangOnly (invoke "DISABLE_CLANG_WARNING" [Token.ident "unused"])
      [Token.ident "DISABLE_GCC_AND_CLANG_WARNING", Token.punct "(", Token.ident "unused",
        Token.punct ")"] :=
  ⟨by decide, by decide, by decide,
    (native_disable_left_unreplaced clangOnly _ (by decide)).2.2 (by decide) (by decide)⟩

/-- C4 at the group `unused` on the GCC-like toolchain. -/
theorem alias_expands_like_target_witness :
    "_MSC_VER" ∉ predefinedNames gccOnly ∧
    (Expansion gccOnly (invoke "DISABLE_GCC_AND_CLANG_WARNING" [Token.ident "unused"])
        [Token.ident "DISABLE_GCC_AND_CLANG_WARNING", Token.punct "(", Token.ident "unused",
          Token.punct ")"]
      ↔ Expansion gccOnly (invoke "DISABLE_GCC_WARNING" [Token.ident "unused"])
        [Token.ident "DISABLE_GCC_AND_CLANG_WARNING", Token.punct "(", Token.ident "unused",
          Token.punct ")"]) :=
  ⟨by decide,
    ((alias_expands_like_target gccOnly [Token.ident "unused"] (by decide)).2.1
      (by decide)).2 _⟩

/-- C8 (amended) at the codes 4146 and 4244 on the MSVC-like toolchain, from
the empty diagnostic state. -/
theorem nested_scopes_restore_witness :
    (Warning.code 4146).validFor (family msvcOnly) = true ∧
    (Warning.code 4244).validFor (family msvcOnly) = true ∧
    ∃ o₂ o₅ o₆,
      Expansion msvcOnly (scopeOpen (family msvcOnly) (Warning.code 4146)) o₂ ∧
      Expansion msvcOnly
        (nestedScopes (family msvcOnly) (Warning.code 4146) (Warning.code 4244)) o₅ ∧
      Expansion msvcOnly
        (nestedScopes (family msvcOnly) (Warning.code 4146) (Warning.code 4244)
          ++ [Token.ident "POP_WARNINGS"]) o₆ ∧
      interp (family msvcOnly) ⟨[], []⟩ o₅ = interp (family msvcOnly) ⟨[], []⟩ o₂ ∧
      interp (family msvcOnly) ⟨[], []⟩ o₆ = ⟨[], []⟩ ∧
      ("_MSC_VER" ∈ predefinedNames msvcOnly →
        Warning.code 4146 ∈ (interp (family msvcOnly) ⟨[], []⟩ o₅).disabled) :=
  ⟨by decide, by decide,
    nested_scopes_restore msvcOnly (Warning.code 4146) (Warning.code 4244) ⟨[], []⟩
      (by decide) (by decide)⟩

end Warnings
